import Mathlib

/-!
Verification model of the billing-cycle / reconciliation core of `src/app.py`
(personal credit-card ledger with OFX bank-statement reconciliation).

Modelling conventions, matching the Python source:

* Python `datetime.date` values are modelled by the `Date` structure
  (proleptic Gregorian calendar).  `Date.toOrdinal` is the translation of
  CPython's `date.toordinal` (`days_before_year(y) + days_before_month(y, m) + d`)
  and `Date.weekday` of `date.weekday()` (`(toordinal + 6) % 7`, Monday = 0).
* `timedelta(days=1)` is `Date.nextDate` / `Date.prevDate`;
  `dateutil.relativedelta(months=k)` is `Date.addMonths`, which clamps the
  day-of-month to the length of the target month exactly as `relativedelta` does.
* Monetary values are modelled by `ℚ`.  Python's `round(x, 2)` (round half to
  even on cent boundaries) is `round2`; binary floating-point representation
  error is outside the model, so arithmetic on amounts is exact and the
  interesting theorems restrict totals to whole cents, the precision the spec
  gives for currency values.
* The SQLite store (`cards`, `transactions`, `bank_statements` tables) is the
  `Store` structure; `AUTOINCREMENT` ids are the `next…Id` counters, SQL
  `UPDATE`/`DELETE` statements become `List.map`/`List.filter` by row id, and
  `ORDER BY` becomes `sortBy` (insertion sort) with the comparator of the
  query.  `TEXT` timestamps (`imported_at`, `matched_at`) are modelled as
  opaque `ℕ` stamps (SQL `MAX(imported_at)` on ISO strings is chronological,
  and the concrete value written by `datetime('now')` is irrelevant to every
  claim, so `0` is written), and `TEXT` batch ids as `ℕ`.  Card attributes
  (name, limit, closing/due day) never flow into a claimed operation, so
  `cards` keeps only the ids; the `card_id` foreign key makes an insert
  against a missing card fail, leaving the store unchanged.
-/

/-- Calendar date, as CPython's `datetime.date` (proleptic Gregorian).
Fields are unbounded integers; `Date.Valid` carves out the real dates. -/
structure Date where
  year : ℤ
  month : ℤ
  day : ℤ
deriving DecidableEq, Repr

/-- Gregorian leap-year rule, as `calendar.isleap` / `datetime._is_leap`. -/
def isLeapYear (y : ℤ) : Prop := (y % 4 = 0 ∧ y % 100 ≠ 0) ∨ y % 400 = 0

instance (y : ℤ) : Decidable (isLeapYear y) := by
  unfold isLeapYear; infer_instance

/-- Number of days in month `m` of year `y` (`datetime._days_in_month`). -/
def daysInMonth (y m : ℤ) : ℤ :=
  if m = 2 then (if isLeapYear y then 29 else 28)
  else if m = 4 ∨ m = 6 ∨ m = 9 ∨ m = 11 then 30 else 31

/-- Valid calendar dates: the ones `datetime.date` can hold (year bounds aside). -/
def Date.Valid (d : Date) : Prop :=
  1 ≤ d.month ∧ d.month ≤ 12 ∧ 1 ≤ d.day ∧ d.day ≤ daysInMonth d.year d.month

instance (d : Date) : Decidable d.Valid := by
  unfold Date.Valid; infer_instance

/-- `datetime._days_before_year`: days up to Jan 1 of year `y`
(so `toOrdinal ⟨1,1,1⟩ = 1`, as in CPython). -/
def daysBeforeYear (y : ℤ) : ℤ :=
  365 * (y - 1) + (y - 1) / 4 - (y - 1) / 100 + (y - 1) / 400

/-- `datetime._days_before_month`: days in year `y` preceding month `m`. -/
def daysBeforeMonth (y m : ℤ) : ℤ :=
  (if m ≤ 1 then 0 else if m = 2 then 31 else if m = 3 then 59 else if m = 4 then 90
   else if m = 5 then 120 else if m = 6 then 151 else if m = 7 then 181
   else if m = 8 then 212 else if m = 9 then 243 else if m = 10 then 273
   else if m = 11 then 304 else 334)
  + (if 2 < m ∧ isLeapYear y then 1 else 0)

/-- CPython's `date.toordinal`. -/
def Date.toOrdinal (d : Date) : ℤ :=
  daysBeforeYear d.year + daysBeforeMonth d.year d.month + d.day

/-- CPython's `date.weekday` (Monday = 0 … Sunday = 6). -/
def Date.weekday (d : Date) : ℤ := (d.toOrdinal + 6) % 7

/-- `d + timedelta(days=1)` on valid dates. -/
def Date.nextDate (d : Date) : Date :=
  if d.day < daysInMonth d.year d.month then ⟨d.year, d.month, d.day + 1⟩
  else if d.month < 12 then ⟨d.year, d.month + 1, 1⟩
  else ⟨d.year + 1, 1, 1⟩

/-- `d - timedelta(days=1)` on valid dates. -/
def Date.prevDate (d : Date) : Date :=
  if 1 < d.day then ⟨d.year, d.month, d.day - 1⟩
  else if 1 < d.month then ⟨d.year, d.month - 1, daysInMonth d.year (d.month - 1)⟩
  else ⟨d.year - 1, 12, 31⟩

/-- `d + timedelta(days=n)`. -/
def Date.addDays (d : Date) (n : ℕ) : Date := Date.nextDate^[n] d

/-- `d - timedelta(days=n)`. -/
def Date.subDays (d : Date) (n : ℕ) : Date := Date.prevDate^[n] d

/-- `d + relativedelta(months=k)` (dateutil): shift the month index by `k`
and clamp the day to the length of the target month. -/
def Date.addMonths (d : Date) (k : ℤ) : Date :=
  let mi := d.year * 12 + (d.month - 1) + k
  let y := mi / 12
  let m := mi % 12 + 1
  ⟨y, m, min d.day (daysInMonth y m)⟩

/-- `d.replace(day=day)` (validity is a side condition, as in Python). -/
def Date.withDay (d : Date) (day : ℤ) : Date := ⟨d.year, d.month, day⟩

/-- Chronological order on dates; on valid dates this is the order of
Python `date` comparison and of SQLite's `date()` string comparison. -/
def dateLe (a b : Date) : Prop :=
  a.year < b.year ∨ (a.year = b.year ∧
    (a.month < b.month ∨ (a.month = b.month ∧ a.day ≤ b.day)))

/-- Strict chronological order on dates. -/
def dateLt (a b : Date) : Prop :=
  a.year < b.year ∨ (a.year = b.year ∧
    (a.month < b.month ∨ (a.month = b.month ∧ a.day < b.day)))

instance (a b : Date) : Decidable (dateLe a b) := by
  unfold dateLe; infer_instance

instance (a b : Date) : Decidable (dateLt a b) := by
  unfold dateLt; infer_instance

-- ---------------------------------------------------------------------------
-- Billing-cycle calendar functions (`cycle_range_for`, `next_business_day`,
-- `invoice_due_date`, `purchase_first_installment_date` of src/app.py)
-- ---------------------------------------------------------------------------

/-- `cycle_range_for(closing_day, ref)` of src/app.py. -/
def cycleRangeFor (closingDay : ℤ) (ref : Date) : Date × Date :=
  if ref.day ≤ closingDay then
    let e := ref.withDay closingDay
    (((e.addMonths (-1))).nextDate, e)
  else
    let s := (ref.withDay closingDay).nextDate
    let firstNext := (ref.withDay 1).addMonths 1
    (s, firstNext.withDay closingDay)

/-- A day the `while` loop of `next_business_day` stops at: a Monday–Friday
day that is not a holiday. -/
def businessDay (holidays : Finset Date) (d : Date) : Prop :=
  ¬(5 ≤ d.weekday ∨ d ∈ holidays)

instance (H : Finset Date) (d : Date) : Decidable (businessDay H d) := by
  unfold businessDay; infer_instance

/-- Fuel-driven unfolding of the `while` loop of `next_business_day`.
`nbdFuel` below provably bounds the number of iterations the Python loop
makes for a finite holiday set, so `nextBusinessDay` equals the loop's result. -/
def nextBusinessDayAux (H : Finset Date) : ℕ → Date → Date
  | 0, d => d
  | n + 1, d => if businessDay H d then d else nextBusinessDayAux H n d.nextDate

/-- Iteration bound for `next_business_day`: enough days to pass every holiday
and then reach a weekday (any 7 consecutive days past the last holiday contain
a business day). -/
def nbdFuel (d : Date) (H : Finset Date) : ℕ :=
  (H.sup fun h => (h.toOrdinal - d.toOrdinal).toNat) + 14

/-- `next_business_day(d, holidays)` of src/app.py: roll `d` forward one day
at a time while it is a Saturday/Sunday or a holiday. -/
def nextBusinessDay (d : Date) (H : Finset Date) : Date :=
  nextBusinessDayAux H (nbdFuel d H) d

/-- The naive (unadjusted) due date: `due_day` of the month after `cycle_end`
(`first_next.replace(day=due_day)` in `invoice_due_date`). -/
def naiveDueDate (dueDay : ℤ) (cycleEnd : Date) : Date :=
  ((cycleEnd.withDay 1).addMonths 1).withDay dueDay

/-- `invoice_due_date(due_day, cycle_end, holidays)` of src/app.py.  Python's
`date.replace(day=due_day)` raises `ValueError` on an invalid day, so the
model returns `none` exactly there. -/
def invoiceDueDate (dueDay : ℤ) (cycleEnd : Date) (H : Finset Date) : Option Date :=
  let t := naiveDueDate dueDay cycleEnd
  if t.Valid then some (nextBusinessDay t H) else none

/-- `purchase_first_installment_date`: the first installment is dated on the
purchase date itself. -/
def purchaseFirstInstallmentDate (purchaseDate : Date) : Date := purchaseDate

-- ---------------------------------------------------------------------------
-- Monetary rounding and the installment splitter (`add_tx_parcelado`)
-- ---------------------------------------------------------------------------

/-- Round half to even to an integer: Python's built-in `round` on a value the
binary float holds exactly. -/
def roundHalfEven (q : ℚ) : ℤ :=
  if Int.fract q < 1 / 2 then ⌊q⌋
  else if 1 / 2 < Int.fract q then ⌊q⌋ + 1
  else if ⌊q⌋ % 2 = 0 then ⌊q⌋ else ⌊q⌋ + 1

/-- Python's `round(x, 2)`: round to cents, half to even. -/
def round2 (q : ℚ) : ℚ := (roundHalfEven (q * 100) : ℚ) / 100

/-- The installment value sequence of `add_tx_parcelado`: `parcelas` is
clamped to at least 1 (`max(1, int(parcelas or 1))`), installments
`1..n-1` each get `base = round(total/n, 2)`, and the last gets
`round(total - acum, 2)` where the running float `acum` equals
`(n-1) * base` (exactly, in the rational model). -/
def split (total : ℚ) (parcelas : ℤ) : List ℚ :=
  let p := (max 1 parcelas).toNat
  let base := round2 (total / (p : ℚ))
  List.replicate (p - 1) base ++ [round2 (total - ((p : ℚ) - 1) * base)]

-- ---------------------------------------------------------------------------
-- The relational store and its rows
-- ---------------------------------------------------------------------------

/-- A row of the `transactions` table. -/
structure Tx where
  id : ℕ
  txDate : Date
  description : String
  category : Option String
  cardId : ℕ
  amount : ℚ
  installments : ℕ
  installmentNo : ℕ
  tags : Option String
  confirmed : Bool
deriving DecidableEq, Repr

/-- A row of the `bank_statements` table. -/
structure StmtLine where
  id : ℕ
  accountName : String
  trxDate : Date
  description : String
  amount : ℚ
  externalId : String
  matchedTxId : Option ℕ
  matchedAt : Option ℕ
  importedAt : ℕ
  batchId : Option ℕ
deriving DecidableEq, Repr

/-- The SQLite database: the three tables plus the `AUTOINCREMENT` counters. -/
structure Store where
  cards : List ℕ
  txs : List Tx
  stmts : List StmtLine
  nextCardId : ℕ
  nextTxId : ℕ
  nextStmtId : ℕ
deriving DecidableEq, Repr

/-- A freshly created database (`ensure_schema` on an empty file). -/
def Store.empty : Store := ⟨[], [], [], 1, 1, 1⟩

/-- `add_card`: only the generated id matters to the claimed operations. -/
def addCard (st : Store) : Store :=
  { st with cards := st.cards ++ [st.nextCardId], nextCardId := st.nextCardId + 1 }

/-- Insert `x` into an already sorted list (`sortBy` helper). -/
def insertSorted {α : Type} (le : α → α → Bool) (x : α) : List α → List α
  | [] => [x]
  | y :: ys => if le x y then x :: y :: ys else y :: insertSorted le x ys

/-- Insertion sort; models SQL `ORDER BY` with a total comparator. -/
def sortBy {α : Type} (le : α → α → Bool) : List α → List α
  | [] => []
  | x :: xs => insertSorted le x (sortBy le xs)

/-- Comparator of `list_transactions`: `ORDER BY date(tx_date) DESC, id DESC`. -/
def txOrder (a b : Tx) : Bool :=
  decide (dateLt b.txDate a.txDate) ||
    (decide (a.txDate = b.txDate) && decide (b.id ≤ a.id))

/-- `list_transactions()`: transactions joined to an existing card, newest
first. -/
def listTransactions (st : Store) : List Tx :=
  sortBy txOrder (st.txs.filter fun t => st.cards.contains t.cardId)

/-- First day of the month of `month` (`month.replace(day=1)`). -/
def firstOfMonth (month : Date) : Date := month.withDay 1

/-- The month window of `list_bank_stmt` and `auto_match`:
`date(first) <= d < date(first + relativedelta(months=1))`. -/
def inMonthRange (month : Date) (d : Date) : Prop :=
  dateLe (firstOfMonth month) d ∧ dateLt d ((firstOfMonth month).addMonths 1)

instance (month d : Date) : Decidable (inMonthRange month d) := by
  unfold inMonthRange; infer_instance

/-- Comparator of `list_bank_stmt`: `ORDER BY date(trx_date) ASC, id ASC`. -/
def stmtOrder (a b : StmtLine) : Bool :=
  decide (dateLt a.trxDate b.trxDate) ||
    (decide (a.trxDate = b.trxDate) && decide (a.id ≤ b.id))

/-- `list_bank_stmt(month)`: statement lines of that month, oldest first. -/
def listBankStmt (st : Store) (month : Date) : List StmtLine :=
  sortBy stmtOrder (st.stmts.filter fun l => decide (inMonthRange month l.trxDate))

-- ---------------------------------------------------------------------------
-- Purchases (`add_tx_parcelado`), imports (`insert_stmt_rows`, `importar_ofx`)
-- ---------------------------------------------------------------------------

/-- One row inserted by the loop of `add_tx_parcelado` (0-based loop index
`i`): effective date `first + relativedelta(months=i)`, description annotated
with `(i+1/n)` when `n > 1`, amount `base` except for the last installment. -/
def parcelaRow (desc : String) (cat : Option String) (cardId : ℕ) (total : ℚ)
    (pd : Date) (p : ℕ) (tags : Option String) (confirmed : Bool)
    (startId : ℕ) (i : ℕ) : Tx :=
  { id := startId + i
    txDate := (purchaseFirstInstallmentDate pd).addMonths i
    description :=
      if 1 < p then desc ++ " (" ++ toString (i + 1) ++ "/" ++ toString p ++ ")" else desc
    category := cat
    cardId := cardId
    amount :=
      if i + 1 < p then round2 (total / (p : ℚ))
      else round2 (total - ((p : ℚ) - 1) * round2 (total / (p : ℚ)))
    installments := p
    installmentNo := i + 1
    tags := tags
    confirmed := confirmed }

/-- The list of transaction rows `add_tx_parcelado` inserts. -/
def parcelaRows (desc : String) (cat : Option String) (cardId : ℕ) (total : ℚ)
    (pd : Date) (parcelas : ℤ) (tags : Option String) (confirmed : Bool)
    (startId : ℕ) : List Tx :=
  let p := (max 1 parcelas).toNat
  (List.range p).map (parcelaRow desc cat cardId total pd p tags confirmed startId)

/-- `add_tx_parcelado(...)` of src/app.py: one `transactions` row per
installment.  The `card_id` foreign key (`PRAGMA foreign_keys = ON`) makes
every insert fail for a missing card, leaving the store unchanged. -/
def addTxParcelado (st : Store) (cardId : ℕ) (desc : String) (cat : Option String)
    (amount : ℚ) (purchaseDate : Date) (parcelas : ℤ) (tags : Option String)
    (confirmed : Bool) : Store :=
  if st.cards.contains cardId then
    { st with
      txs := st.txs ++ parcelaRows desc cat cardId amount purchaseDate parcelas tags confirmed st.nextTxId
      nextTxId := st.nextTxId + (max 1 parcelas).toNat }
  else st

/-- A parsed OFX record (`{date, amount, desc, fitid}` dict of the parsers). -/
structure OfxRec where
  date : Date
  amount : ℚ
  desc : String
  fitid : String
deriving DecidableEq, Repr

/-- The `bank_statements` row `insert_stmt_rows` builds from a parsed record. -/
def mkStmtLine (r : OfxRec) (account : String) (batchId importedAt : ℕ)
    (id : ℕ) : StmtLine :=
  { id := id
    accountName := account
    trxDate := r.date
    description := r.desc
    amount := r.amount
    externalId := r.fitid
    matchedTxId := none
    matchedAt := none
    importedAt := importedAt
    batchId := some batchId }

/-- `insert_stmt_rows(rows, ...)`: `INSERT OR IGNORE` each row — the UNIQUE
constraint on `external_id` silently skips a row whose id is already stored —
while the counter `n` is incremented for every row of the input, ignored or
not (`INSERT OR IGNORE` does not raise, so the `except` path is never taken
for a duplicate). -/
def insertStmtStep (account : String) (batchId importedAt : ℕ)
    (acc : Store × ℕ) (r : OfxRec) : Store × ℕ :=
  if acc.1.stmts.any fun l => l.externalId == r.fitid then (acc.1, acc.2 + 1)
  else
    ({ acc.1 with
       stmts := acc.1.stmts ++ [mkStmtLine r account batchId importedAt acc.1.nextStmtId]
       nextStmtId := acc.1.nextStmtId + 1 },
     acc.2 + 1)

/-- The fold of `insert_stmt_rows` over the parsed rows, starting at `n = 0`. -/
def insertStmtRows (st : Store) (rows : List OfxRec) (account : String)
    (batchId importedAt : ℕ) : Store × ℕ :=
  rows.foldl (insertStmtStep account batchId importedAt) (st, 0)

/-- `importar_ofx` after parsing: a fresh batch id and import timestamp
(modelled as parameters; their generation is `utcnow` plus randomness) are
attached to the parsed rows and the rows are inserted.  Returns `(n, batch_id)`. -/
def importarOfx (st : Store) (rows : List OfxRec) (account : String)
    (batchId importedAt : ℕ) : Store × ℕ × ℕ :=
  ((insertStmtRows st rows account batchId importedAt).1,
   (insertStmtRows st rows account batchId importedAt).2, batchId)

-- ---------------------------------------------------------------------------
-- Reconciliation operations
-- ---------------------------------------------------------------------------

/-- The "Conciliar" (manual match) UI handler: unconditionally point statement
line `stmtId` at `txId` and mark transaction `txId` confirmed — two plain
`UPDATE`s that silently affect zero rows when an id does not exist. -/
def conciliar (st : Store) (stmtId txId : ℕ) : Store :=
  { st with
    stmts := st.stmts.map fun l =>
      if l.id = stmtId then { l with matchedTxId := some txId, matchedAt := some 0 } else l
    txs := st.txs.map fun t => if t.id = txId then { t with confirmed := true } else t }

/-- The "Desconciliar" (unmatch) UI handler: read the line's `matched_tx_id`;
if the row exists and the value is truthy (`if row and row[0]`), un-confirm
that transaction; then clear the line's match fields. -/
def desconciliar (st : Store) (stmtId : ℕ) : Store :=
  let prev : Option ℕ := (st.stmts.find? fun l => l.id == stmtId).bind (·.matchedTxId)
  let st1 : Store :=
    match prev with
    | some tid =>
      if tid ≠ 0 then
        { st with txs := st.txs.map fun t =>
            if t.id = tid then { t with confirmed := false } else t }
      else st
    | none => st
  { st1 with stmts := st1.stmts.map fun l =>
      if l.id = stmtId then { l with matchedTxId := none, matchedAt := none } else l }

/-- The "Criar lançamento (confirmado)" UI handler: materialize a confirmed
single-installment transaction from statement line `stmtId` on card `cardId`
(`description or "OFX"`, category "Conciliado", tags "OFX"), then point the
line at the highest transaction id (`SELECT id ... ORDER BY id DESC LIMIT 1`). -/
def materialize (st : Store) (stmtId cardId : ℕ) : Store :=
  match st.stmts.find? fun l => l.id == stmtId with
  | none => st
  | some s =>
    let st1 := addTxParcelado st cardId
      (if s.description = "" then "OFX" else s.description)
      (some "Conciliado") s.amount s.trxDate 1 (some "OFX") true
    match (st1.txs.map (·.id)).max? with
    | none => st1
    | some newId =>
      { st1 with stmts := st1.stmts.map fun l =>
          if l.id = stmtId then { l with matchedTxId := some newId, matchedAt := some 0 } else l }

/-- `ultimo_lote_info()`: `SELECT batch_id, MAX(imported_at) ... WHERE batch_id
IS NOT NULL` returns the batch id sitting on a row of maximal import timestamp
(SQLite's bare-column-with-MAX semantics; on ties the choice is arbitrary
there, first-seen here), plus that batch's row count. -/
def ultimoLoteInfo (st : Store) : Option (ℕ × ℕ) :=
  let best := (st.stmts.filter fun l => l.batchId.isSome).foldl
    (fun acc l =>
      match acc with
      | none => some l
      | some m => if m.importedAt < l.importedAt then some l else some m)
    none
  match best with
  | none => none
  | some l =>
    match l.batchId with
    | none => none
    | some bid => some (bid, st.stmts.countP fun x => x.batchId == some bid)

/-- `desfazer_ultimo_lote(force)` of src/app.py: resolve the most recent
batch; with `force`, un-confirm every transaction matched from that batch and
clear those matches, then delete all its lines; without `force`, delete only
its unmatched lines.  Returns `total - rest`: the batch's row count before,
minus its rows still present. -/
def desfazerUltimoLote (st : Store) (force : Bool) : Store × ℕ :=
  match ultimoLoteInfo st with
  | none => (st, 0)
  | some (bid, total) =>
    let st1 :=
      if force then
        let tids : List ℕ := (st.stmts.filter fun l =>
          l.batchId == some bid && l.matchedTxId.isSome).filterMap (·.matchedTxId)
        { st with
          txs := st.txs.map (fun t =>
            if tids.contains t.id then { t with confirmed := false } else t)
          stmts := st.stmts.map (fun l =>
            if l.batchId = some bid then { l with matchedTxId := none, matchedAt := none } else l) }
      else st
    let st2 :=
      if force then { st1 with stmts := st1.stmts.filter fun l => !(l.batchId == some bid) }
      else
        { st1 with stmts := st1.stmts.filter fun l =>
            !(l.batchId == some bid && l.matchedTxId == none) }
    let rest := st2.stmts.countP fun l => l.batchId == some bid
    (st2, total - rest)

/-- Absolute value on `ℚ`, written out so it evaluates by kernel reduction. -/
def absQ (q : ℚ) : ℚ := if q < 0 then -q else q

/-- `np.isclose(a, b, atol=tol)` with numpy's default `rtol = 1e-5`:
`|a - b| <= atol + rtol * |b|`. -/
def npIsClose (a b tol : ℚ) : Prop := absQ (a - b) ≤ tol + (1 / 100000) * absQ b

instance (a b tol : ℚ) : Decidable (npIsClose a b tol) := by
  unfold npIsClose; infer_instance

/-- The candidate predicate of `auto_match` for statement line `s`: a
transaction dated within `[s.date - tol_days, s.date + tol_days]` whose amount
is `np.isclose` to the line's amount. -/
def txCandidate (tolDays : ℕ) (tolValue : ℚ) (s : StmtLine) (t : Tx) : Bool :=
  decide (dateLe (s.trxDate.subDays tolDays) t.txDate) &&
    decide (dateLe t.txDate (s.trxDate.addDays tolDays)) &&
    decide (npIsClose t.amount s.amount tolValue)

/-- The `tx` dataframe of `auto_match`: `list_transactions()` filtered to the
month of `month` and `confirmed != 1`.  It is read once before the loop and
never refreshed while matches are written. -/
def autoMatchSnapshot (st : Store) (month : Date) : List Tx :=
  (listTransactions st).filter fun t =>
    decide (inMonthRange month t.txDate) && !t.confirmed

/-- The transaction `auto_match` pairs with line `s`, if any: the first
candidate of the stale snapshot, in the snapshot's (`list_transactions`)
order — `cand.iloc[0]`. -/
def autoMatchPick (txSnap : List Tx) (tolDays : ℕ) (tolValue : ℚ)
    (s : StmtLine) : Option Tx :=
  txSnap.find? (txCandidate tolDays tolValue s)

/-- One iteration of the `auto_match` loop: find the first candidate for line
`s` in the (stale) snapshot; on success write the match to the store and count
it. -/
def autoMatchStep (txSnap : List Tx) (tolDays : ℕ) (tolValue : ℚ)
    (acc : Store × ℕ) (s : StmtLine) : Store × ℕ :=
  match autoMatchPick txSnap tolDays tolValue s with
  | none => acc
  | some t =>
    ({ acc.1 with
       stmts := acc.1.stmts.map fun l =>
         if l.id = s.id then { l with matchedTxId := some t.id, matchedAt := some 0 } else l
       txs := acc.1.txs.map fun u => if u.id = t.id then { u with confirmed := true } else u },
     acc.2 + 1)

/-- The rows `auto_match` iterates over: the month's statement lines that are
still unmatched (`stmt[stmt["matched_tx_id"].isna()]`). -/
def autoMatchLines (st : Store) (month : Date) : List StmtLine :=
  (listBankStmt st month).filter fun s => s.matchedTxId == none

/-- Net effect of the `auto_match` loop on one stored statement line `l`:
if `l` is one of the iterated lines (matched by id) and a candidate was
picked for it, the match fields are written; otherwise the line is unchanged.
(A closed form of the loop, used by the theorems below.) -/
def applyPickLine (txSnap : List Tx) (td : ℕ) (tv : ℚ) (L : List StmtLine)
    (l : StmtLine) : StmtLine :=
  match L.find? (fun s => s.id == l.id) with
  | none => l
  | some s =>
    match autoMatchPick txSnap td tv s with
    | none => l
    | some t => { l with matchedTxId := some t.id, matchedAt := some 0 }

/-- The transaction ids picked for the iterated lines, in iteration order. -/
def pickedTids (txSnap : List Tx) (td : ℕ) (tv : ℚ) (L : List StmtLine) : List ℕ :=
  L.filterMap (fun s => (autoMatchPick txSnap td tv s).map (·.id))

/-- Net effect of the `auto_match` loop on one stored transaction `u`:
confirmed when some iterated line picked it. -/
def applyPickTx (txSnap : List Tx) (td : ℕ) (tv : ℚ) (L : List StmtLine)
    (u : Tx) : Tx :=
  if (pickedTids txSnap td tv L).contains u.id then { u with confirmed := true } else u

/-- `auto_match(month, tol_days, tol_value)` of src/app.py. -/
def autoMatch (st : Store) (month : Date) (tolDays : ℕ) (tolValue : ℚ) : Store × ℕ :=
  if (listBankStmt st month).isEmpty then (st, 0)
  else
    (autoMatchLines st month).foldl
      (autoMatchStep (autoMatchSnapshot st month) tolDays tolValue) (st, 0)

/-- The pairing invariant of spec §7: every confirmed transaction has a
statement line matched to it, and every matched line points at an existing
confirmed transaction. -/
def pairingInv (st : Store) : Prop :=
  (∀ t ∈ st.txs, t.confirmed → ∃ l ∈ st.stmts, l.matchedTxId = some t.id) ∧
  (∀ l ∈ st.stmts, ∀ tid, l.matchedTxId = some tid →
    ∃ t ∈ st.txs, t.id = tid ∧ t.confirmed)

instance (st : Store) : Decidable (pairingInv st) := by
  unfold pairingInv; infer_instance

-- ---------------------------------------------------------------------------
-- Concrete stores used to evaluate the operations on small scenarios
-- ---------------------------------------------------------------------------

/-- One card, one pending R$50.00 transaction dated 2024-05-10, no statement
lines (a store reached from empty by `add_card` + `add_tx_parcelado`). -/
def stLunch : Store :=
  addTxParcelado (addCard Store.empty) 1 "Lunch" none 50 ⟨2024, 5, 10⟩ 1 none false

/-- One pending transaction and two unmatched statement lines of one batch,
all dated 2024-05-10 with amount 100. -/
def stDouble : Store :=
  { cards := [1]
    txs := [{ id := 1, txDate := ⟨2024, 5, 10⟩, description := "t", category := none,
              cardId := 1, amount := 100, installments := 1, installmentNo := 1,
              tags := none, confirmed := false }]
    stmts := [{ id := 1, accountName := "c", trxDate := ⟨2024, 5, 10⟩, description := "a",
                amount := 100, externalId := "A", matchedTxId := none, matchedAt := none,
                importedAt := 5, batchId := some 1 },
              { id := 2, accountName := "c", trxDate := ⟨2024, 5, 10⟩, description := "b",
                amount := 100, externalId := "B", matchedTxId := none, matchedAt := none,
                importedAt := 5, batchId := some 1 }]
    nextCardId := 2, nextTxId := 2, nextStmtId := 3 }

/-- A pending transaction on the last day of April and an unmatched statement
line on May 1 with the same amount: within ±2 days but in different months. -/
def stBoundary : Store :=
  { cards := [1]
    txs := [{ id := 1, txDate := ⟨2024, 4, 30⟩, description := "t", category := none,
              cardId := 1, amount := 50, installments := 1, installmentNo := 1,
              tags := none, confirmed := false }]
    stmts := [{ id := 1, accountName := "c", trxDate := ⟨2024, 5, 1⟩, description := "a",
                amount := 50, externalId := "A", matchedTxId := none, matchedAt := none,
                importedAt := 5, batchId := some 1 }]
    nextCardId := 2, nextTxId := 2, nextStmtId := 2 }

/-- Two batches: the line auto-matchable against the pending transaction sits
in batch 1, while the most recent batch (higher import timestamp) is batch 2. -/
def stTwoBatches : Store :=
  { cards := [1]
    txs := [{ id := 1, txDate := ⟨2024, 5, 10⟩, description := "t", category := none,
              cardId := 1, amount := 100, installments := 1, installmentNo := 1,
              tags := none, confirmed := false }]
    stmts := [{ id := 1, accountName := "c", trxDate := ⟨2024, 5, 10⟩, description := "a",
                amount := 100, externalId := "A", matchedTxId := none, matchedAt := none,
                importedAt := 10, batchId := some 1 },
              { id := 2, accountName := "c", trxDate := ⟨2024, 6, 20⟩, description := "b",
                amount := 999, externalId := "B", matchedTxId := none, matchedAt := none,
                importedAt := 20, batchId := some 2 }]
    nextCardId := 2, nextTxId := 2, nextStmtId := 3 }

/-- One batch holding a matched line (paired with a confirmed transaction) and
an unmatched line. -/
def stOneBatch : Store :=
  { cards := [1]
    txs := [{ id := 1, txDate := ⟨2024, 5, 10⟩, description := "t", category := none,
              cardId := 1, amount := 100, installments := 1, installmentNo := 1,
              tags := none, confirmed := true }]
    stmts := [{ id := 1, accountName := "c", trxDate := ⟨2024, 5, 10⟩, description := "a",
                amount := 100, externalId := "A", matchedTxId := some 1, matchedAt := some 0,
                importedAt := 10, batchId := some 1 },
              { id := 2, accountName := "c", trxDate := ⟨2024, 5, 11⟩, description := "b",
                amount := 7, externalId := "B", matchedTxId := none, matchedAt := none,
                importedAt := 10, batchId := some 1 }]
    nextCardId := 2, nextTxId := 2, nextStmtId := 3 }

-- ===========================================================================
-- Theorems
-- ===========================================================================

-- Basic calendar lemmas ------------------------------------------------------

theorem daysInMonth_pos (y m : ℤ) : 0 < daysInMonth y m := by
  unfold daysInMonth; split_ifs <;> omega

theorem daysInMonth_le_31 (y m : ℤ) : daysInMonth y m ≤ 31 := by
  unfold daysInMonth; split_ifs <;> omega

theorem daysInMonth_ge_28 (y m : ℤ) : 28 ≤ daysInMonth y m := by
  unfold daysInMonth; split_ifs <;> omega

theorem daysInMonth_eq_28 {y m : ℤ} (h : daysInMonth y m = 28) :
    m = 2 ∧ ¬isLeapYear y := by
  unfold daysInMonth at h
  split_ifs at h <;> first | exact ⟨by assumption, by assumption⟩ | omega

theorem daysBeforeYear_succ (y : ℤ) :
    daysBeforeYear (y + 1) = daysBeforeYear y + 365 + (if isLeapYear y then 1 else 0) := by
  unfold daysBeforeYear isLeapYear
  split_ifs with h
  · omega
  · omega

theorem daysBeforeMonth_succ (y m : ℤ) (h1 : 1 ≤ m) (h2 : m ≤ 11) :
    daysBeforeMonth y (m + 1) = daysBeforeMonth y m + daysInMonth y m := by
  interval_cases m <;> by_cases hL : isLeapYear y <;>
    norm_num [daysBeforeMonth, daysInMonth, hL]

theorem daysBeforeMonth_one (y : ℤ) : daysBeforeMonth y 1 = 0 := by
  norm_num [daysBeforeMonth]

theorem daysBeforeMonth_twelve (y : ℤ) :
    daysBeforeMonth y 12 = 334 + (if isLeapYear y then 1 else 0) := by
  by_cases hL : isLeapYear y <;> norm_num [daysBeforeMonth, hL]

theorem nextDate_valid {d : Date} (h : d.Valid) : d.nextDate.Valid := by
  obtain ⟨h1, h2, h3, h4⟩ := h
  have p1 := daysInMonth_pos d.year (d.month + 1)
  have p2 := daysInMonth_pos (d.year + 1) 1
  unfold Date.nextDate
  split_ifs with hd hm <;> unfold Date.Valid <;> dsimp only <;> omega

theorem toOrdinal_nextDate {d : Date} (h : d.Valid) :
    d.nextDate.toOrdinal = d.toOrdinal + 1 := by
  obtain ⟨h1, h2, h3, h4⟩ := h
  unfold Date.nextDate
  split_ifs with hd hm <;> unfold Date.toOrdinal <;> dsimp only
  · omega
  · have hstep := daysBeforeMonth_succ d.year d.month h1 (by omega)
    omega
  · have hm12 : d.month = 12 := by omega
    have hy := daysBeforeYear_succ d.year
    have e1 : daysBeforeMonth (d.year + 1) 1 = 0 := daysBeforeMonth_one (d.year + 1)
    have e2 := daysBeforeMonth_twelve d.year
    have e3 : daysInMonth d.year 12 = 31 := by
      norm_num [daysInMonth]
    rw [hm12] at hd h4 ⊢
    by_cases hL : isLeapYear d.year <;> simp only [hL, if_true, if_false] at hy e2 <;> omega

theorem iterate_nextDate_valid {d : Date} (h : d.Valid) (k : ℕ) :
    (Date.nextDate^[k] d).Valid := by
  induction k generalizing d with
  | zero => simpa using h
  | succ n ih =>
    rw [Function.iterate_succ_apply]
    exact ih (nextDate_valid h)

theorem iterate_nextDate_ordinal {d : Date} (h : d.Valid) (k : ℕ) :
    (Date.nextDate^[k] d).toOrdinal = d.toOrdinal + k := by
  induction k generalizing d with
  | zero => simp
  | succ n ih =>
    rw [Function.iterate_succ_apply, ih (nextDate_valid h), toOrdinal_nextDate h]
    push_cast; ring

theorem dateLe_refl (d : Date) : dateLe d d := by unfold dateLe; omega

theorem dateLe_trans {a b c : Date} (h1 : dateLe a b) (h2 : dateLe b c) : dateLe a c := by
  unfold dateLe at *; omega

theorem dateLe_nextDate {d : Date} (h : d.Valid) : dateLe d d.nextDate := by
  obtain ⟨h1, h2, h3, h4⟩ := h
  unfold Date.nextDate dateLe
  split_ifs <;> dsimp only <;> omega

theorem dateLe_iterate_nextDate {d : Date} (h : d.Valid) (k : ℕ) :
    dateLe d (Date.nextDate^[k] d) := by
  induction k generalizing d with
  | zero => simpa using dateLe_refl d
  | succ n ih =>
    rw [Function.iterate_succ_apply]
    exact dateLe_trans (dateLe_nextDate h) (ih (nextDate_valid h))

theorem addMonths_neg_one (y m day : ℤ) (hm1 : 1 ≤ m) (hm2 : m ≤ 12) (hd1 : 1 ≤ day)
    (hd : day ≤ 28) :
    Date.addMonths ⟨y, m, day⟩ (-1) =
      if 2 ≤ m then ⟨y, m - 1, day⟩ else ⟨y - 1, 12, day⟩ := by
  have h28 := daysInMonth_ge_28 ((y * 12 + (m - 1) + -1) / 12) ((y * 12 + (m - 1) + -1) % 12 + 1)
  unfold Date.addMonths
  dsimp only
  split_ifs with h2 <;> rw [Date.mk.injEq] <;> refine ⟨by omega, by omega, by omega⟩

theorem addMonths_one (y m day : ℤ) (hm1 : 1 ≤ m) (hm2 : m ≤ 12) (hd1 : 1 ≤ day)
    (hd : day ≤ 28) :
    Date.addMonths ⟨y, m, day⟩ 1 =
      if m ≤ 11 then ⟨y, m + 1, day⟩ else ⟨y + 1, 1, day⟩ := by
  have h28 := daysInMonth_ge_28 ((y * 12 + (m - 1) + 1) / 12) ((y * 12 + (m - 1) + 1) % 12 + 1)
  unfold Date.addMonths
  dsimp only
  split_ifs with h2 <;> rw [Date.mk.injEq] <;> refine ⟨by omega, by omega, by omega⟩

theorem addMonths_zero {d : Date} (hv : d.Valid) : d.addMonths 0 = d := by
  obtain ⟨y, m, day⟩ := d
  obtain ⟨h1, h2, h3, h4⟩ := hv
  dsimp only at h1 h2 h3 h4
  have h28 : daysInMonth y m =
      daysInMonth ((y * 12 + (m - 1) + 0) / 12) ((y * 12 + (m - 1) + 0) % 12 + 1) := by
    have e1 : (y * 12 + (m - 1) + 0) / 12 = y := by omega
    have e2 : (y * 12 + (m - 1) + 0) % 12 + 1 = m := by omega
    rw [e1, e2]
  unfold Date.addMonths
  dsimp only
  rw [Date.mk.injEq]
  refine ⟨by omega, by omega, by omega⟩

-- Business-day roll-forward --------------------------------------------------

theorem nextBusinessDayAux_good (H : Finset Date) (fuel : ℕ) (d : Date)
    (hv : d.Valid) (hex : ∃ k ≤ fuel, businessDay H (Date.nextDate^[k] d)) :
    businessDay H (nextBusinessDayAux H fuel d) ∧
      ∃ j : ℕ, nextBusinessDayAux H fuel d = Date.nextDate^[j] d := by
  induction fuel generalizing d with
  | zero =>
    obtain ⟨k, hk, hg⟩ := hex
    have hk0 : k = 0 := Nat.le_zero.mp hk
    subst hk0
    simp only [Function.iterate_zero, id] at hg
    exact ⟨hg, 0, by simp [nextBusinessDayAux]⟩
  | succ n ih =>
    by_cases hg : businessDay H d
    · exact ⟨by simp [nextBusinessDayAux, hg], 0, by simp [nextBusinessDayAux, hg]⟩
    · obtain ⟨k, hk, hgk⟩ := hex
      have hkpos : k ≠ 0 := by
        rintro rfl
        simp only [Function.iterate_zero, id] at hgk
        exact hg hgk
      obtain ⟨k', rfl⟩ := Nat.exists_eq_succ_of_ne_zero hkpos
      have hex' : ∃ j ≤ n, businessDay H (Date.nextDate^[j] d.nextDate) := by
        refine ⟨k', by omega, ?_⟩
        rwa [← Function.iterate_succ_apply]
      obtain ⟨hgood, j, hj⟩ := ih d.nextDate (nextDate_valid hv) hex'
      refine ⟨by simpa [nextBusinessDayAux, hg] using hgood, j + 1, ?_⟩
      simp only [nextBusinessDayAux, hg, if_false]
      rw [hj, ← Function.iterate_succ_apply]

theorem exists_businessDay_le_fuel (d : Date) (H : Finset Date) (hv : d.Valid) :
    ∃ k ≤ nbdFuel d H, businessDay H (Date.nextDate^[k] d) := by
  set J := H.sup fun h => (h.toOrdinal - d.toOrdinal).toNat with hJ
  have hbound : ∀ h ∈ H, h.toOrdinal ≤ d.toOrdinal + J := by
    intro h hh
    have h2 := @Finset.le_sup ℕ Date _ _ H (fun x => (x.toOrdinal - d.toOrdinal).toNat) h hh
    dsimp only at h2
    omega
  -- pick the first Monday strictly past every holiday
  set a : ℤ := d.toOrdinal + (J + 1) + 6 with ha
  set i : ℤ := (7 - a % 7) % 7 with hi
  have hi0 : 0 ≤ i ∧ i < 7 := by
    constructor <;> [exact Int.emod_nonneg _ (by norm_num); exact Int.emod_lt_of_pos _ (by norm_num)]
  have hmod : (a + i) % 7 = 0 := by omega
  refine ⟨J + 1 + i.toNat, by unfold nbdFuel; omega, ?_⟩
  have hord := iterate_nextDate_ordinal hv (J + 1 + i.toNat)
  unfold businessDay
  rintro (hwk | hmem)
  · unfold Date.weekday at hwk
    have : (Date.nextDate^[J + 1 + i.toNat] d).toOrdinal + 6 = a + i := by
      rw [hord]; push_cast; omega
    omega
  · have := hbound _ hmem
    omega

/-- `next_business_day` returns a business day reached by rolling forward. -/
theorem nextBusinessDay_spec (d : Date) (H : Finset Date) (hv : d.Valid) :
    businessDay H (nextBusinessDay d H) ∧ dateLe d (nextBusinessDay d H) := by
  obtain ⟨hgood, j, hj⟩ :=
    nextBusinessDayAux_good H (nbdFuel d H) d hv (exists_businessDay_le_fuel d H hv)
  refine ⟨hgood, ?_⟩
  unfold nextBusinessDay
  rw [hj]
  exact dateLe_iterate_nextDate hv j

theorem absQ_eq_abs (q : ℚ) : absQ q = |q| := by
  unfold absQ
  split_ifs with h
  · rw [abs_of_neg h]
  · rw [abs_of_nonneg (le_of_not_lt h)]

-- ---------------------------------------------------------------------------
-- C5: cycle_range_for
-- ---------------------------------------------------------------------------

/-- Claim C5 (amended): for every closing day in [1,28] and valid reference
date, `cycle_range_for` returns a closed interval `[start, end]` containing
the reference date, whose inclusive length is between 28 and 31 days, and
whose start is exactly `end` minus one calendar month plus one day.  (The
original claim's direction — `end` equals `start` plus one calendar month
minus one day — fails under relativedelta's day clamping; see the
counterexample.) -/
theorem claim_C5_amended (cd : ℤ) (ref : Date) (h1 : 1 ≤ cd) (h2 : cd ≤ 28)
    (hv : ref.Valid) :
    dateLe (cycleRangeFor cd ref).1 ref ∧ dateLe ref (cycleRangeFor cd ref).2 ∧
    28 ≤ (cycleRangeFor cd ref).2.toOrdinal - (cycleRangeFor cd ref).1.toOrdinal + 1 ∧
    (cycleRangeFor cd ref).2.toOrdinal - (cycleRangeFor cd ref).1.toOrdinal + 1 ≤ 31 ∧
    (cycleRangeFor cd ref).1 = ((cycleRangeFor cd ref).2.addMonths (-1)).nextDate := by
  obtain ⟨y, m, rd⟩ := ref
  obtain ⟨hm1, hm2, hd1, hd4⟩ := hv
  dsimp only at hm1 hm2 hd1 hd4
  unfold cycleRangeFor
  dsimp only [Date.withDay]
  split_ifs with hcase
  · -- rd ≤ cd: end is this month's closing day
    rw [addMonths_neg_one y m cd hm1 hm2 (by omega) h2]
    split_ifs with hge2
    · -- 2 ≤ m
      by_cases hlt : cd < daysInMonth y (m - 1)
      · have hstep := daysBeforeMonth_succ y (m - 1) (by omega) (by omega)
        rw [show m - 1 + 1 = m from by omega] at hstep
        have hge := daysInMonth_ge_28 y (m - 1)
        have hle := daysInMonth_le_31 y (m - 1)
        rw [Date.nextDate, if_pos hlt]
        refine ⟨?_, ?_, ?_, ?_, rfl⟩ <;>
          first
            | (unfold dateLe; dsimp only; omega)
            | (unfold Date.toOrdinal; dsimp only; omega)
      · have hge := daysInMonth_ge_28 y (m - 1)
        have heq : daysInMonth y (m - 1) = 28 := by omega
        obtain ⟨hm3, hnl⟩ := daysInMonth_eq_28 heq
        have hm3' : m = 3 := by omega
        subst hm3'
        have hcd : cd = 28 := by omega
        subst hcd
        rw [Date.nextDate, if_neg hlt, if_pos (by norm_num : (3:ℤ) - 1 < 12)]
        rw [show (3:ℤ) - 1 + 1 = 3 from by norm_num]
        refine ⟨?_, ?_, ?_, ?_, rfl⟩ <;>
          first
            | (unfold dateLe; dsimp only; omega)
            | (unfold Date.toOrdinal; dsimp only; omega)
    · -- m = 1
      have hm' : m = 1 := by omega
      subst hm'
      have e3 : daysInMonth (y - 1) 12 = 31 := by norm_num [daysInMonth]
      have hlt : cd < daysInMonth (y - 1) 12 := by omega
      rw [Date.nextDate, if_pos hlt]
      have hone := daysBeforeMonth_one y
      have htw := daysBeforeMonth_twelve (y - 1)
      have hysucc := daysBeforeYear_succ (y - 1)
      rw [show y - 1 + 1 = y from by omega] at hysucc
      refine ⟨?_, ?_, ?_, ?_, rfl⟩ <;>
        first
          | (unfold dateLe; dsimp only; omega)
          | (unfold Date.toOrdinal; dsimp only;
             by_cases hL : isLeapYear (y - 1) <;>
               simp only [hL, if_true, if_false] at hysucc htw <;> omega)
  · -- cd < rd: end is next month's closing day
    rw [addMonths_one y m 1 hm1 hm2 (by omega) (by omega)]
    have hlt : cd < daysInMonth y m := by omega
    split_ifs with hle11
    · -- m ≤ 11
      rw [Date.nextDate, if_pos hlt]
      dsimp only [Date.withDay]
      have hstep := daysBeforeMonth_succ y m hm1 hle11
      have hge := daysInMonth_ge_28 y m
      have hle := daysInMonth_le_31 y m
      refine ⟨?_, ?_, ?_, ?_, ?_⟩ <;>
        first
          | (unfold dateLe; dsimp only; omega)
          | (unfold Date.toOrdinal; dsimp only; omega)
          | (rw [addMonths_neg_one y (m + 1) cd (by omega) (by omega) (by omega) h2,
                 if_pos (by omega : (2:ℤ) ≤ m + 1),
                 show m + 1 - 1 = m from by omega, Date.nextDate, if_pos hlt])
    · -- m = 12
      have hm' : m = 12 := by omega
      subst hm'
      rw [Date.nextDate, if_pos hlt]
      dsimp only [Date.withDay]
      have hone := daysBeforeMonth_one (y + 1)
      have htw := daysBeforeMonth_twelve y
      have hysucc := daysBeforeYear_succ y
      refine ⟨?_, ?_, ?_, ?_, ?_⟩ <;>
        first
          | (unfold dateLe; dsimp only; omega)
          | (unfold Date.toOrdinal; dsimp only;
             by_cases hL : isLeapYear y <;>
               simp only [hL, if_true, if_false] at hysucc htw <;> omega)
          | (rw [addMonths_neg_one (y + 1) 1 cd (by omega) (by omega) (by omega) h2,
                 if_neg (by omega : ¬ (2:ℤ) ≤ 1),
                 show y + 1 - 1 = y from by omega, Date.nextDate, if_pos hlt])

/-- Claim C5 (witness): the amended theorem applied at closing day 15 and
reference 2024-03-10 (the spec's own scenario, whose cycle is
[2024-02-16, 2024-03-15]). -/
theorem claim_C5_witness :
    dateLe (cycleRangeFor 15 ⟨2024, 3, 10⟩).1 ⟨2024, 3, 10⟩ ∧
    dateLe ⟨2024, 3, 10⟩ (cycleRangeFor 15 ⟨2024, 3, 10⟩).2 ∧
    28 ≤ (cycleRangeFor 15 ⟨2024, 3, 10⟩).2.toOrdinal
          - (cycleRangeFor 15 ⟨2024, 3, 10⟩).1.toOrdinal + 1 ∧
    (cycleRangeFor 15 ⟨2024, 3, 10⟩).2.toOrdinal
      - (cycleRangeFor 15 ⟨2024, 3, 10⟩).1.toOrdinal + 1 ≤ 31 ∧
    (cycleRangeFor 15 ⟨2024, 3, 10⟩).1
      = ((cycleRangeFor 15 ⟨2024, 3, 10⟩).2.addMonths (-1)).nextDate :=
  claim_C5_amended 15 ⟨2024, 3, 10⟩ (by norm_num) (by norm_num) (by decide)

/-- Claim C5 (counterexample): with closing day 28 and reference 2023-02-15
the cycle is [2023-01-29, 2023-02-28], but one calendar month after the start
minus one day is 2023-02-27 (relativedelta clamps Jan 29 + 1 month to Feb 28),
not the end 2023-02-28 — so the claim's "end is exactly one calendar month
after start minus one day" fails as stated. -/
theorem claim_C5_counterexample :
    cycleRangeFor 28 ⟨2023, 2, 15⟩ = (⟨2023, 1, 29⟩, ⟨2023, 2, 28⟩) ∧
    ((⟨2023, 1, 29⟩ : Date).addMonths 1).prevDate = ⟨2023, 2, 27⟩ ∧
    ((⟨2023, 1, 29⟩ : Date).addMonths 1).prevDate ≠ (cycleRangeFor 28 ⟨2023, 2, 15⟩).2 := by
  refine ⟨by decide, by decide, by decide⟩

-- ---------------------------------------------------------------------------
-- C7: invoice_due_date
-- ---------------------------------------------------------------------------

/-- Claim C7 (confirmed): whenever `invoice_due_date(due_day, cycle_end,
holidays)` returns a date, that date is not a Saturday or Sunday (weekday < 5,
Monday = 0), is not a holiday, and is not earlier than the naive due date
(`due_day` of the month following `cycle_end`): the adjustment only rolls
forward.  (On an invalid naive day Python raises `ValueError` and nothing is
returned, modelled by `none`.) -/
theorem claim_C7 (dueDay : ℤ) (cycleEnd : Date) (H : Finset Date) (r : Date)
    (h : invoiceDueDate dueDay cycleEnd H = some r) :
    r.weekday < 5 ∧ r ∉ H ∧ dateLe (naiveDueDate dueDay cycleEnd) r := by
  unfold invoiceDueDate at h
  dsimp only at h
  split_ifs at h with hv
  obtain ⟨hgood, hle⟩ := nextBusinessDay_spec (naiveDueDate dueDay cycleEnd) H hv
  have hr : nextBusinessDay (naiveDueDate dueDay cycleEnd) H = r := by
    injection h
  rw [hr] at hgood hle
  unfold businessDay at hgood
  push_neg at hgood
  exact ⟨by omega, hgood.2, hle⟩

/-- Claim C7 (witness): the spec's scenario — due day 7, cycle end 2024-03-15,
no holidays; the naive due date 2024-04-07 is a Sunday, and the returned date
2024-04-08 (a Monday) satisfies all three properties. -/
theorem claim_C7_witness :
    (⟨2024, 4, 8⟩ : Date).weekday < 5 ∧ (⟨2024, 4, 8⟩ : Date) ∉ (∅ : Finset Date) ∧
      dateLe (naiveDueDate 7 ⟨2024, 3, 15⟩) ⟨2024, 4, 8⟩ :=
  claim_C7 7 ⟨2024, 3, 15⟩ ∅ ⟨2024, 4, 8⟩ (by with_unfolding_all rfl)

-- Rounding lemmas ------------------------------------------------------------

theorem roundHalfEven_intCast (n : ℤ) : roundHalfEven (n : ℚ) = n := by
  unfold roundHalfEven
  rw [Int.fract_intCast, Int.floor_intCast]
  norm_num

theorem round2_cents (k : ℤ) : round2 ((k : ℚ) / 100) = (k : ℚ) / 100 := by
  unfold round2
  rw [div_mul_cancel₀ _ (by norm_num : (100 : ℚ) ≠ 0), roundHalfEven_intCast]

theorem split_sum_exact (k n : ℤ) (hn1 : 1 ≤ n) :
    (split ((k : ℚ) / 100) n).sum = (k : ℚ) / 100 := by
  unfold split
  have hmax : max 1 n = n := by omega
  rw [hmax]
  have hpn : ((n.toNat : ℕ) : ℚ) = (n : ℚ) := by
    rw [show ((n.toNat : ℕ) : ℚ) = ((n.toNat : ℤ) : ℚ) from by push_cast; ring,
        Int.toNat_of_nonneg (by omega)]
  have hp1 : 1 ≤ n.toNat := by omega
  rw [List.sum_append, List.sum_replicate, List.sum_cons, List.sum_nil]
  unfold round2
  have harg : ((k : ℚ) / 100 - ((n.toNat : ℚ) - 1)
        * ((roundHalfEven ((k : ℚ) / 100 / (n.toNat : ℚ) * 100) : ℚ) / 100)) * 100
      = ((k - (n - 1) * roundHalfEven ((k : ℚ) / 100 / (n.toNat : ℚ) * 100) : ℤ) : ℚ) := by
    push_cast [hpn]
    ring
  rw [harg, roundHalfEven_intCast]
  have hsmul : (n.toNat - 1 : ℕ) • ((roundHalfEven ((k : ℚ) / 100 / (n.toNat : ℚ) * 100) : ℚ) / 100)
      = ((n : ℚ) - 1) * ((roundHalfEven ((k : ℚ) / 100 / (n.toNat : ℚ) * 100) : ℚ) / 100) := by
    rw [nsmul_eq_mul]
    congr 1
    rw [Nat.cast_sub hp1, hpn]
    norm_num
  rw [hsmul]
  push_cast
  ring

/-- Claim C6 (amended): for every whole-cent total `k/100` and `n ∈ [1,60]`,
the installment split produces `n` values, installments `1..n-1` each equal
`round(total/n, 2)` and installment `n` equals `round(total - (n-1)*base, 2)`,
and the values sum exactly to `round(total, 2)`.  (The original claim's final
conjunct — each value within one cent of the base — is false: the last
installment absorbs the whole rounding remainder, up to `n/2` cents; see the
counterexample.) -/
theorem claim_C6_amended (k n : ℤ) (hn1 : 1 ≤ n) (hn2 : n ≤ 60) :
    (split ((k : ℚ) / 100) n).sum = round2 ((k : ℚ) / 100) ∧
    (split ((k : ℚ) / 100) n).length = n.toNat ∧
    (∀ v ∈ (split ((k : ℚ) / 100) n).dropLast, v = round2 ((k : ℚ) / 100 / (n.toNat : ℚ))) ∧
    (split ((k : ℚ) / 100) n).getLast? =
      some (round2 ((k : ℚ) / 100 - ((n.toNat : ℚ) - 1) * round2 ((k : ℚ) / 100 / (n.toNat : ℚ)))) := by
  have hmax : max 1 n = n := by omega
  refine ⟨?_, ?_, ?_, ?_⟩
  · rw [split_sum_exact k n hn1, round2_cents]
  · unfold split
    rw [hmax]
    simp
    omega
  · unfold split
    rw [hmax]
    intro v hv
    rw [List.dropLast_concat] at hv
    rw [List.eq_of_mem_replicate hv]
  · unfold split
    rw [hmax]
    rw [List.getLast?_concat]

/-- Claim C6 (witness): the amended theorem at R$100.00 (10000 cents) split in
3 — the spec's own scenario, [33.33, 33.33, 33.34]. -/
theorem claim_C6_witness :
    (split (((10000 : ℤ) : ℚ) / 100) 3).sum = round2 (((10000 : ℤ) : ℚ) / 100) ∧
    split (((10000 : ℤ) : ℚ) / 100) 3 = [3333 / 100, 3333 / 100, 3334 / 100] :=
  ⟨(claim_C6_amended 10000 3 (by norm_num) (by norm_num)).1, by with_unfolding_all rfl⟩

/-- Claim C6 (counterexample): splitting R$0.10 into 4 installments gives
[0.02, 0.02, 0.02, 0.04]: the last installment differs from the base 0.02 by
two cents, refuting "each value differing from the base by at most one cent". -/
theorem claim_C6_counterexample :
    split ((10 : ℚ) / 100) 4 = [2 / 100, 2 / 100, 2 / 100, 4 / 100] ∧
    round2 ((10 : ℚ) / 100 / ((4 : ℕ) : ℚ)) = 2 / 100 ∧
    ¬ (absQ (4 / 100 - 2 / 100) ≤ (1 : ℚ) / 100) :=
  ⟨by with_unfolding_all rfl, by with_unfolding_all rfl,
   of_decide_eq_true (by with_unfolding_all rfl)⟩

-- ---------------------------------------------------------------------------
-- C10: installment dates and clamping
-- ---------------------------------------------------------------------------

/-- Claim C10 (confirmed): for a whole-cent total, the `i`-th (0-based) row of
`add_tx_parcelado` is dated `purchase_date + relativedelta(months=i)`, whose
day-of-month is clamped to the target month's length (`min`); the first row is
dated the purchase date itself (`purchase_first_installment_date` is the
identity); and an installment count below 1 is clamped to 1, producing a
single row carrying the full amount with the unannotated description. -/
theorem claim_C10 (desc : String) (cat : Option String) (cardId : ℕ) (k : ℤ)
    (pd : Date) (n : ℤ) (tags : Option String) (cf : Bool) (startId : ℕ)
    (hv : pd.Valid) :
    (parcelaRows desc cat cardId ((k : ℚ) / 100) pd n tags cf startId).length
      = (max 1 n).toNat ∧
    (∀ i (h : i < (parcelaRows desc cat cardId ((k : ℚ) / 100) pd n tags cf startId).length),
      ((parcelaRows desc cat cardId ((k : ℚ) / 100) pd n tags cf startId).get ⟨i, h⟩).txDate
        = pd.addMonths i) ∧
    (∀ (d : Date) (j : ℤ), (d.addMonths j).day
        = min d.day (daysInMonth (d.addMonths j).year (d.addMonths j).month)) ∧
    (∀ h0 : 0 < (parcelaRows desc cat cardId ((k : ℚ) / 100) pd n tags cf startId).length,
      ((parcelaRows desc cat cardId ((k : ℚ) / 100) pd n tags cf startId).get ⟨0, h0⟩).txDate
        = pd) ∧
    (n < 1 →
      parcelaRows desc cat cardId ((k : ℚ) / 100) pd n tags cf startId
        = [{ id := startId, txDate := pd, description := desc, category := cat,
             cardId := cardId, amount := (k : ℚ) / 100, installments := 1,
             installmentNo := 1, tags := tags, confirmed := cf }]) := by
  refine ⟨?_, ?_, ?_, ?_, ?_⟩
  · simp [parcelaRows]
  · intro i h
    simp only [parcelaRows, List.get_eq_getElem, List.getElem_map, List.getElem_range]
    rfl
  · intro d j
    unfold Date.addMonths
    dsimp only
  · intro h0
    simp only [parcelaRows, List.get_eq_getElem, List.getElem_map, List.getElem_range]
    show (purchaseFirstInstallmentDate pd).addMonths ((0 : ℕ) : ℤ) = pd
    unfold purchaseFirstInstallmentDate
    rw [Nat.cast_zero, addMonths_zero hv]
  · intro hn
    have hp : (max 1 n).toNat = 1 := by omega
    unfold parcelaRows
    rw [hp]
    show [parcelaRow desc cat cardId ((k : ℚ) / 100) pd 1 tags cf startId 0] = _
    unfold parcelaRow purchaseFirstInstallmentDate
    norm_num
    constructor
    · exact addMonths_zero hv
    · exact round2_cents k

/-- Claim C10 (witness): a two-installment purchase on 2023-01-31 — the second
installment lands on 2023-02-28 (clamped). -/
theorem claim_C10_witness :
    (parcelaRows "TV" none 1 (((100000 : ℤ) : ℚ) / 100) ⟨2023, 1, 31⟩ 2 none false 1).length
      = (max 1 (2 : ℤ)).toNat ∧
    ((⟨2023, 1, 31⟩ : Date).addMonths 1).day
      = min (⟨2023, 1, 31⟩ : Date).day
          (daysInMonth ((⟨2023, 1, 31⟩ : Date).addMonths 1).year
            ((⟨2023, 1, 31⟩ : Date).addMonths 1).month) ∧
    (⟨2023, 1, 31⟩ : Date).addMonths 1 = ⟨2023, 2, 28⟩ :=
  ⟨(claim_C10 "TV" none 1 100000 ⟨2023, 1, 31⟩ 2 none false 1 (by decide)).1,
   (claim_C10 "TV" none 1 100000 ⟨2023, 1, 31⟩ 2 none false 1 (by decide)).2.2.1 ⟨2023, 1, 31⟩ 1,
   by decide⟩

-- Sorting is a permutation ---------------------------------------------------

theorem insertSorted_perm {α : Type} (le : α → α → Bool) (x : α) (l : List α) :
    (insertSorted le x l).Perm (x :: l) := by
  induction l with
  | nil => simp [insertSorted]
  | cons y ys ih =>
    unfold insertSorted
    split_ifs with h
    · exact List.Perm.refl _
    · exact (ih.cons y).trans (List.Perm.swap x y ys)

theorem sortBy_perm {α : Type} (le : α → α → Bool) (l : List α) :
    (sortBy le l).Perm l := by
  induction l with
  | nil => simp [sortBy]
  | cons x xs ih =>
    unfold sortBy
    exact (insertSorted_perm le x (sortBy le xs)).trans (ih.cons x)

theorem mem_listBankStmt {st : Store} {month : Date} {s : StmtLine} :
    s ∈ listBankStmt st month ↔ s ∈ st.stmts ∧ inMonthRange month s.trxDate := by
  unfold listBankStmt
  rw [(sortBy_perm _ _).mem_iff, List.mem_filter]
  simp

theorem mem_listTransactions {st : Store} {t : Tx} :
    t ∈ listTransactions st ↔ t ∈ st.txs ∧ st.cards.contains t.cardId = true := by
  unfold listTransactions
  rw [(sortBy_perm _ _).mem_iff, List.mem_filter]

-- C8: soft batch undo --------------------------------------------------------

/-- Claim C8 (confirmed): on a store containing at least one batch, the soft
undo (`force=false`) leaves every transaction row untouched, keeps every
matched statement line, deletes nothing outside the resolved most-recent
batch, and only ever deletes lines that are unmatched and belong to that
batch. -/
theorem claim_C8 (st : Store) (bid total : ℕ)
    (hinfo : ultimoLoteInfo st = some (bid, total)) :
    (desfazerUltimoLote st false).1.txs = st.txs ∧
    (∀ l ∈ st.stmts, l.matchedTxId ≠ none → l ∈ (desfazerUltimoLote st false).1.stmts) ∧
    (∀ l ∈ st.stmts, l ∉ (desfazerUltimoLote st false).1.stmts →
      l.batchId = some bid ∧ l.matchedTxId = none) ∧
    (∀ l ∈ (desfazerUltimoLote st false).1.stmts, l ∈ st.stmts) := by
  unfold desfazerUltimoLote
  rw [hinfo]
  simp only [Bool.false_eq_true, if_false]
  refine ⟨trivial, ?_, ?_, ?_⟩
  · intro l hl hm
    rw [List.mem_filter]
    refine ⟨hl, ?_⟩
    simp only [Bool.not_eq_eq_eq_not, Bool.not_true, Bool.and_eq_false_iff]
    right
    simpa using hm
  · intro l hl hnot
    rw [List.mem_filter] at hnot
    push_neg at hnot
    have h2 := hnot hl
    simp at h2
    exact h2
  · intro l hl
    exact List.mem_of_mem_filter hl

/-- Claim C8 (witness): the soft undo on `stOneBatch` (batch 1, one matched
and one unmatched line). -/
theorem claim_C8_witness :
    (desfazerUltimoLote stOneBatch false).1.txs = stOneBatch.txs ∧
    (∀ l ∈ stOneBatch.stmts, l.matchedTxId ≠ none →
      l ∈ (desfazerUltimoLote stOneBatch false).1.stmts) ∧
    (∀ l ∈ stOneBatch.stmts, l ∉ (desfazerUltimoLote stOneBatch false).1.stmts →
      l.batchId = some 1 ∧ l.matchedTxId = none) ∧
    (∀ l ∈ (desfazerUltimoLote stOneBatch false).1.stmts, l ∈ stOneBatch.stmts) ∧
    (desfazerUltimoLote stOneBatch false).2 = 1 := by
  have h := claim_C8 stOneBatch 1 2 (by with_unfolding_all rfl)
  exact ⟨h.1, h.2.1, h.2.2.1, h.2.2.2, by with_unfolding_all rfl⟩

-- C2 helper lemmas -----------------------------------------------------------

theorem insertStmtStep_dup {account : String} {bid ts : ℕ} {A : Store} {c : ℕ} {r : OfxRec}
    (hany : (A.stmts.any fun l => l.externalId == r.fitid) = true) :
    insertStmtStep account bid ts (A, c) r = (A, c + 1) := by
  unfold insertStmtStep
  dsimp only
  rw [hany]
  simp

theorem insertStmtStep_new {account : String} {bid ts : ℕ} {A : Store} {c : ℕ} {r : OfxRec}
    (hany : (A.stmts.any fun l => l.externalId == r.fitid) = false) :
    insertStmtStep account bid ts (A, c) r =
      ({ A with
          stmts := A.stmts ++ [mkStmtLine r account bid ts A.nextStmtId]
          nextStmtId := A.nextStmtId + 1 },
       c + 1) := by
  unfold insertStmtStep
  dsimp only
  rw [hany]
  simp

theorem insertStmt_fold_count (account : String) (bid ts : ℕ) (rows : List OfxRec)
    (A : Store) (c : ℕ) :
    (rows.foldl (insertStmtStep account bid ts) (A, c)).2 = c + rows.length := by
  induction rows generalizing A c with
  | nil => simp
  | cons r rest ih =>
    rw [List.foldl_cons]
    cases hany : A.stmts.any fun l => l.externalId == r.fitid
    · rw [insertStmtStep_new hany, ih]
      simp
      omega
    · rw [insertStmtStep_dup hany, ih]
      simp
      omega

theorem insertStmt_fold_mono (account : String) (bid ts : ℕ) (rows : List OfxRec)
    (A : Store) (c : ℕ) (l : StmtLine) (hl : l ∈ A.stmts) :
    l ∈ (rows.foldl (insertStmtStep account bid ts) (A, c)).1.stmts := by
  induction rows generalizing A c with
  | nil => simpa using hl
  | cons r rest ih =>
    rw [List.foldl_cons]
    cases hany : A.stmts.any fun l => l.externalId == r.fitid
    · rw [insertStmtStep_new hany]
      exact ih _ _ (by simp [hl])
    · rw [insertStmtStep_dup hany]
      exact ih A _ hl

theorem insertStmt_fold_present (account : String) (bid ts : ℕ) (rows : List OfxRec)
    (A : Store) (c : ℕ) (r : OfxRec) (hr : r ∈ rows) :
    ∃ l ∈ (rows.foldl (insertStmtStep account bid ts) (A, c)).1.stmts,
      l.externalId = r.fitid := by
  induction rows generalizing A c with
  | nil => cases hr
  | cons r0 rest ih =>
    rw [List.foldl_cons]
    rcases List.mem_cons.mp hr with h0 | hmem
    · subst h0
      cases hany : A.stmts.any fun l => l.externalId == r.fitid
      · rw [insertStmtStep_new hany]
        refine ⟨mkStmtLine r account bid ts A.nextStmtId, ?_, rfl⟩
        exact insertStmt_fold_mono account bid ts rest _ _ _ (by simp)
      · rw [insertStmtStep_dup hany]
        obtain ⟨l, hl, he⟩ := List.any_eq_true.mp hany
        exact ⟨l, insertStmt_fold_mono account bid ts rest A _ l hl, by simpa using he⟩
    · cases hany : A.stmts.any fun l => l.externalId == r0.fitid
      · rw [insertStmtStep_new hany]
        exact ih _ _ hmem
      · rw [insertStmtStep_dup hany]
        exact ih _ _ hmem

theorem insertStmt_fold_nodup (account : String) (bid ts : ℕ) (rows : List OfxRec)
    (A : Store) (c : ℕ) (h : (A.stmts.map (·.externalId)).Nodup) :
    ((rows.foldl (insertStmtStep account bid ts) (A, c)).1.stmts.map (·.externalId)).Nodup := by
  induction rows generalizing A c with
  | nil => simpa using h
  | cons r rest ih =>
    rw [List.foldl_cons]
    cases hany : A.stmts.any fun l => l.externalId == r.fitid
    · rw [insertStmtStep_new hany]
      refine ih _ _ ?_
      dsimp only
      rw [List.map_append, List.nodup_append]
      simp only [List.map_cons, List.map_nil, mkStmtLine]
      refine ⟨h, List.nodup_singleton _, ?_⟩
      intro x hx
      simp only [List.mem_singleton]
      intro hx1
      subst hx1
      rw [List.any_eq_false] at hany
      obtain ⟨l, hl, he⟩ := List.mem_map.mp hx
      exact absurd (by simpa using he) (by simpa using hany l hl)
    · rw [insertStmtStep_dup hany]
      exact ih A _ h

theorem insertStmt_fold_idem (account : String) (bid ts : ℕ) (rows : List OfxRec)
    (A : Store) (c : ℕ) (h : ∀ r ∈ rows, ∃ l ∈ A.stmts, l.externalId = r.fitid) :
    (rows.foldl (insertStmtStep account bid ts) (A, c)).1 = A := by
  induction rows generalizing A c with
  | nil => rfl
  | cons r rest ih =>
    rw [List.foldl_cons]
    have hany : (A.stmts.any fun l => l.externalId == r.fitid) = true := by
      obtain ⟨l, hl, he⟩ := h r (by simp)
      exact List.any_eq_true.mpr ⟨l, hl, by simpa using he⟩
    rw [insertStmtStep_dup hany]
    exact ih A _ (fun r' hr' => h r' (by simp [hr']))

/-- Claim C2 (amended): importing parsed records persists exactly one row per
distinct external id (uniqueness is preserved and every record's id is
present), every previously stored line survives, and importing the identical
record list twice leaves the statement table exactly as after one import.
However the count `importar_ofx` returns equals the number of parsed records
processed — duplicates and already-present ids are counted too (`n += 1` also
on `INSERT OR IGNORE`d rows), not the number of rows actually inserted; see
the counterexample. -/
theorem claim_C2_amended (st : Store) (rows : List OfxRec) (account : String)
    (bid ts : ℕ) (hnd : (st.stmts.map (·.externalId)).Nodup) :
    (importarOfx st rows account bid ts).2.1 = rows.length ∧
    ((importarOfx st rows account bid ts).1.stmts.map (·.externalId)).Nodup ∧
    (∀ r ∈ rows, ∃ l ∈ (importarOfx st rows account bid ts).1.stmts,
      l.externalId = r.fitid) ∧
    (∀ l ∈ st.stmts, l ∈ (importarOfx st rows account bid ts).1.stmts) ∧
    (∀ bid2 ts2 : ℕ,
      (importarOfx (importarOfx st rows account bid ts).1 rows account bid2 ts2).1.stmts
        = (importarOfx st rows account bid ts).1.stmts) := by
  unfold importarOfx insertStmtRows
  dsimp only
  refine ⟨?_, ?_, ?_, ?_, ?_⟩
  · rw [insertStmt_fold_count]; omega
  · exact insertStmt_fold_nodup account bid ts rows st 0 hnd
  · exact fun r hr => insertStmt_fold_present account bid ts rows st 0 r hr
  · exact fun l hl => insertStmt_fold_mono account bid ts rows st 0 l hl
  · intro bid2 ts2
    rw [insertStmt_fold_idem account bid2 ts2 rows _ 0
      (fun r hr => insertStmt_fold_present account bid ts rows st 0 r hr)]

/-- Claim C2 (witness): the amended theorem applied to importing two records
sharing external id "A" into an empty store. -/
theorem claim_C2_witness :
    (importarOfx Store.empty
      [⟨⟨2024, 5, 1⟩, 5, "x", "A"⟩, ⟨⟨2024, 5, 2⟩, 6, "y", "A"⟩] "Conta" 1 10).2.1
      = [(⟨⟨2024, 5, 1⟩, 5, "x", "A"⟩ : OfxRec), ⟨⟨2024, 5, 2⟩, 6, "y", "A"⟩].length ∧
    ((importarOfx Store.empty
      [⟨⟨2024, 5, 1⟩, 5, "x", "A"⟩, ⟨⟨2024, 5, 2⟩, 6, "y", "A"⟩] "Conta" 1 10).1.stmts.map
        (·.externalId)).Nodup ∧
    (∀ r ∈ [(⟨⟨2024, 5, 1⟩, 5, "x", "A"⟩ : OfxRec), ⟨⟨2024, 5, 2⟩, 6, "y", "A"⟩],
      ∃ l ∈ (importarOfx Store.empty
        [⟨⟨2024, 5, 1⟩, 5, "x", "A"⟩, ⟨⟨2024, 5, 2⟩, 6, "y", "A"⟩] "Conta" 1 10).1.stmts,
        l.externalId = r.fitid) ∧
    (∀ l ∈ Store.empty.stmts, l ∈ (importarOfx Store.empty
      [⟨⟨2024, 5, 1⟩, 5, "x", "A"⟩, ⟨⟨2024, 5, 2⟩, 6, "y", "A"⟩] "Conta" 1 10).1.stmts) ∧
    (∀ bid2 ts2 : ℕ,
      (importarOfx (importarOfx Store.empty
          [⟨⟨2024, 5, 1⟩, 5, "x", "A"⟩, ⟨⟨2024, 5, 2⟩, 6, "y", "A"⟩] "Conta" 1 10).1
        [⟨⟨2024, 5, 1⟩, 5, "x", "A"⟩, ⟨⟨2024, 5, 2⟩, 6, "y", "A"⟩] "Conta" bid2 ts2).1.stmts
        = (importarOfx Store.empty
            [⟨⟨2024, 5, 1⟩, 5, "x", "A"⟩, ⟨⟨2024, 5, 2⟩, 6, "y", "A"⟩] "Conta" 1 10).1.stmts) :=
  claim_C2_amended Store.empty
    [⟨⟨2024, 5, 1⟩, 5, "x", "A"⟩, ⟨⟨2024, 5, 2⟩, 6, "y", "A"⟩] "Conta" 1 10 (by decide)

/-- Claim C2 (counterexample): importing two records that share external id
"A" into an empty store persists one row but returns a count of 2 — the
returned count does not reflect "inserted rows only, duplicates not counted". -/
theorem claim_C2_counterexample :
    (importarOfx Store.empty
      [⟨⟨2024, 5, 1⟩, 5, "x", "A"⟩, ⟨⟨2024, 5, 2⟩, 6, "y", "A"⟩] "Conta" 1 10).2.1 = 2 ∧
    (importarOfx Store.empty
      [⟨⟨2024, 5, 1⟩, 5, "x", "A"⟩, ⟨⟨2024, 5, 2⟩, 6, "y", "A"⟩] "Conta" 1 10).1.stmts.length
      = 1 :=
  ⟨by with_unfolding_all rfl, by with_unfolding_all rfl⟩

-- auto_match loop characterization -------------------------------------------

theorem autoMatchStep_none {txSnap : List Tx} {td : ℕ} {tv : ℚ} {s : StmtLine}
    {A : Store} {c : ℕ} (h : autoMatchPick txSnap td tv s = none) :
    autoMatchStep txSnap td tv (A, c) s = (A, c) := by
  unfold autoMatchStep
  rw [h]

theorem autoMatchStep_some {txSnap : List Tx} {td : ℕ} {tv : ℚ} {s : StmtLine} {t : Tx}
    {A : Store} {c : ℕ} (h : autoMatchPick txSnap td tv s = some t) :
    autoMatchStep txSnap td tv (A, c) s =
      ({ A with
          stmts := A.stmts.map (fun l =>
            if l.id = s.id then { l with matchedTxId := some t.id, matchedAt := some 0 } else l)
          txs := A.txs.map (fun u => if u.id = t.id then { u with confirmed := true } else u) },
       c + 1) := by
  unfold autoMatchStep
  rw [h]

theorem find?_by_id_eq_none {rest : List StmtLine} {i : ℕ}
    (h : i ∉ rest.map (·.id)) : rest.find? (fun s => s.id == i) = none := by
  rw [List.find?_eq_none]
  intro x hx
  simp only [beq_iff_eq]
  intro he
  exact h (List.mem_map.mpr ⟨x, hx, he⟩)

theorem applyPickLine_nil {txSnap : List Tx} {td : ℕ} {tv : ℚ} {l : StmtLine} :
    applyPickLine txSnap td tv [] l = l := rfl

theorem applyPickTx_nil {txSnap : List Tx} {td : ℕ} {tv : ℚ} {u : Tx} :
    applyPickTx txSnap td tv [] u = u := by
  unfold applyPickTx pickedTids
  simp

theorem applyPickLine_of_not_mem {txSnap : List Tx} {td : ℕ} {tv : ℚ}
    {L : List StmtLine} {l : StmtLine} (h : l.id ∉ L.map (·.id)) :
    applyPickLine txSnap td tv L l = l := by
  unfold applyPickLine
  rw [find?_by_id_eq_none h]

theorem applyPickLine_cons_miss {txSnap : List Tx} {td : ℕ} {tv : ℚ}
    {s : StmtLine} {L : List StmtLine} {l : StmtLine} (hid : (s.id == l.id) = false) :
    applyPickLine txSnap td tv (s :: L) l = applyPickLine txSnap td tv L l := by
  unfold applyPickLine
  rw [List.find?_cons, hid]

theorem applyPickLine_cons_hit_none {txSnap : List Tx} {td : ℕ} {tv : ℚ}
    {s : StmtLine} {L : List StmtLine} {l : StmtLine} (hid : (s.id == l.id) = true)
    (hpick : autoMatchPick txSnap td tv s = none) :
    applyPickLine txSnap td tv (s :: L) l = l := by
  unfold applyPickLine
  rw [List.find?_cons, hid]
  dsimp only
  rw [hpick]

theorem applyPickLine_cons_hit_some {txSnap : List Tx} {td : ℕ} {tv : ℚ}
    {s : StmtLine} {L : List StmtLine} {l : StmtLine} {t : Tx}
    (hid : (s.id == l.id) = true) (hpick : autoMatchPick txSnap td tv s = some t) :
    applyPickLine txSnap td tv (s :: L) l
      = { l with matchedTxId := some t.id, matchedAt := some 0 } := by
  unfold applyPickLine
  rw [List.find?_cons, hid]
  dsimp only
  rw [hpick]

theorem pickedTids_cons_none {txSnap : List Tx} {td : ℕ} {tv : ℚ}
    {s : StmtLine} {L : List StmtLine} (hpick : autoMatchPick txSnap td tv s = none) :
    pickedTids txSnap td tv (s :: L) = pickedTids txSnap td tv L := by
  unfold pickedTids
  rw [List.filterMap_cons, hpick]
  rfl

theorem pickedTids_cons_some {txSnap : List Tx} {td : ℕ} {tv : ℚ}
    {s : StmtLine} {L : List StmtLine} {t : Tx}
    (hpick : autoMatchPick txSnap td tv s = some t) :
    pickedTids txSnap td tv (s :: L) = t.id :: pickedTids txSnap td tv L := by
  unfold pickedTids
  rw [List.filterMap_cons, hpick]
  rfl

theorem autoMatch_fold_char (txSnap : List Tx) (td : ℕ) (tv : ℚ) (L : List StmtLine)
    (A : Store) (c : ℕ) (hL : (L.map (·.id)).Nodup) :
    (L.foldl (autoMatchStep txSnap td tv) (A, c)).1.stmts
      = A.stmts.map (applyPickLine txSnap td tv L) ∧
    (L.foldl (autoMatchStep txSnap td tv) (A, c)).1.txs
      = A.txs.map (applyPickTx txSnap td tv L) ∧
    (L.foldl (autoMatchStep txSnap td tv) (A, c)).2
      = c + L.countP (fun s => (autoMatchPick txSnap td tv s).isSome) := by
  induction L generalizing A c with
  | nil =>
    refine ⟨?_, ?_, ?_⟩
    · symm
      rw [List.map_congr_left (fun l _ => applyPickLine_nil)]
      exact List.map_id A.stmts
    · symm
      rw [List.map_congr_left (fun u _ => applyPickTx_nil)]
      exact List.map_id A.txs
    · simp
  | cons s rest ih =>
    have hnd : (rest.map (·.id)).Nodup := by
      rw [List.map_cons, List.nodup_cons] at hL
      exact hL.2
    have hsid : s.id ∉ rest.map (·.id) := by
      rw [List.map_cons, List.nodup_cons] at hL
      exact hL.1
    rw [List.foldl_cons]
    cases hpick : autoMatchPick txSnap td tv s with
    | none =>
      rw [autoMatchStep_none hpick]
      obtain ⟨ih1, ih2, ih3⟩ := ih A c hnd
      refine ⟨?_, ?_, ?_⟩
      · rw [ih1]
        apply List.map_congr_left
        intro l _
        cases hid : (s.id == l.id)
        · rw [applyPickLine_cons_miss hid]
        · rw [applyPickLine_cons_hit_none hid hpick,
              applyPickLine_of_not_mem (by rwa [← beq_iff_eq.mp hid])]
      · rw [ih2]
        apply List.map_congr_left
        intro u _
        unfold applyPickTx
        rw [pickedTids_cons_none hpick]
      · rw [ih3, List.countP_cons, hpick]
        simp
    | some t =>
      rw [autoMatchStep_some hpick]
      obtain ⟨ih1, ih2, ih3⟩ := ih _ (c + 1) hnd
      refine ⟨?_, ?_, ?_⟩
      · rw [ih1]
        dsimp only
        rw [List.map_map]
        apply List.map_congr_left
        intro l _
        dsimp only [Function.comp]
        cases hid : (s.id == l.id)
        · have hne : ¬ l.id = s.id := fun he => by simp [he] at hid
          rw [if_neg hne, applyPickLine_cons_miss hid]
        · have heq : l.id = s.id := (beq_iff_eq.mp hid).symm
          rw [if_pos heq, applyPickLine_cons_hit_some hid hpick]
          apply applyPickLine_of_not_mem
          show l.id ∉ rest.map (·.id)
          rwa [heq]
      · rw [ih2]
        dsimp only
        rw [List.map_map]
        apply List.map_congr_left
        intro u _
        dsimp only [Function.comp]
        unfold applyPickTx
        rw [pickedTids_cons_some hpick, List.contains_cons]
        by_cases hid : u.id = t.id
        · rw [if_pos hid]
          have hb : (u.id == t.id) = true := beq_iff_eq.mpr hid
          show (if (pickedTids txSnap td tv rest).contains u.id = true
                then { ({ u with confirmed := true } : Tx) with confirmed := true }
                else ({ u with confirmed := true} : Tx))
              = if (u.id == t.id || (pickedTids txSnap td tv rest).contains u.id) = true
                then { u with confirmed := true } else u
          rw [hb, Bool.true_or, if_pos rfl]
          split_ifs <;> rfl
        · rw [if_neg hid]
          have hb : (u.id == t.id) = false := by simp [hid]
          rw [hb, Bool.false_or]
      · rw [ih3, List.countP_cons, hpick]
        simp
        omega

theorem mem_autoMatchLines {st : Store} {month : Date} {s : StmtLine} :
    s ∈ autoMatchLines st month ↔
      s ∈ st.stmts ∧ inMonthRange month s.trxDate ∧ s.matchedTxId = none := by
  unfold autoMatchLines
  rw [List.mem_filter, mem_listBankStmt]
  simp [and_assoc]

theorem mem_autoMatchSnapshot {st : Store} {month : Date} {t : Tx} :
    t ∈ autoMatchSnapshot st month ↔
      t ∈ st.txs ∧ st.cards.contains t.cardId = true ∧
        inMonthRange month t.txDate ∧ t.confirmed = false := by
  unfold autoMatchSnapshot
  rw [List.mem_filter, mem_listTransactions]
  simp [and_assoc, Bool.not_eq_true']

theorem autoMatchLines_ids_nodup (st : Store) (month : Date)
    (h : (st.stmts.map (·.id)).Nodup) :
    ((autoMatchLines st month).map (·.id)).Nodup := by
  unfold autoMatchLines listBankStmt
  have hA : ((st.stmts.filter fun l =>
      decide (inMonthRange month l.trxDate)).map (·.id)).Nodup :=
    h.sublist ((List.filter_sublist _).map _)
  have hB := (((sortBy_perm stmtOrder
    (st.stmts.filter fun l => decide (inMonthRange month l.trxDate))).map (·.id)).nodup_iff).mpr hA
  exact hB.sublist ((List.filter_sublist _).map _)

theorem applyPickLine_id {txSnap : List Tx} {td : ℕ} {tv : ℚ} {L : List StmtLine}
    {l : StmtLine} : (applyPickLine txSnap td tv L l).id = l.id := by
  unfold applyPickLine
  cases h1 : L.find? (fun s => s.id == l.id) with
  | none => rfl
  | some s =>
    dsimp only
    cases h2 : autoMatchPick txSnap td tv s <;> rfl

theorem applyPickLine_batchId {txSnap : List Tx} {td : ℕ} {tv : ℚ} {L : List StmtLine}
    {l : StmtLine} : (applyPickLine txSnap td tv L l).batchId = l.batchId := by
  unfold applyPickLine
  cases h1 : L.find? (fun s => s.id == l.id) with
  | none => rfl
  | some s =>
    dsimp only
    cases h2 : autoMatchPick txSnap td tv s <;> rfl

theorem find?_by_id_self {L : List StmtLine} (hnd : (L.map (·.id)).Nodup) {s : StmtLine}
    (hs : s ∈ L) : L.find? (fun x => x.id == s.id) = some s := by
  induction L with
  | nil => cases hs
  | cons a rest ih =>
    have hnd' : (rest.map (·.id)).Nodup := by
      rw [List.map_cons, List.nodup_cons] at hnd
      exact hnd.2
    have hna : a.id ∉ rest.map (·.id) := by
      rw [List.map_cons, List.nodup_cons] at hnd
      exact hnd.1
    rw [List.find?_cons]
    cases hb : (a.id == s.id)
    · have hne : s ≠ a := by
        intro he
        subst he
        simp at hb
      dsimp only
      rcases List.mem_cons.mp hs with he | hmem
      · exact absurd he hne
      · exact ih hnd' hmem
    · dsimp only
      have heq : a.id = s.id := beq_iff_eq.mp hb
      rcases List.mem_cons.mp hs with he | hmem
      · rw [he]
      · exact absurd (List.mem_map.mpr ⟨s, hmem, heq.symm⟩) hna

theorem autoMatch_char (st : Store) (month : Date) (td : ℕ) (tv : ℚ)
    (h : (st.stmts.map (·.id)).Nodup) :
    (autoMatch st month td tv).1.stmts
      = st.stmts.map
          (applyPickLine (autoMatchSnapshot st month) td tv (autoMatchLines st month)) ∧
    (autoMatch st month td tv).1.txs
      = st.txs.map (applyPickTx (autoMatchSnapshot st month) td tv (autoMatchLines st month)) ∧
    (autoMatch st month td tv).2
      = (autoMatchLines st month).countP
          (fun s => (autoMatchPick (autoMatchSnapshot st month) td tv s).isSome) := by
  unfold autoMatch
  split_ifs with he
  · have hempty : autoMatchLines st month = [] := by
      unfold autoMatchLines
      rw [List.isEmpty_iff.mp he]
      rfl
    rw [hempty]
    refine ⟨?_, ?_, ?_⟩
    · symm
      rw [List.map_congr_left (fun l _ => applyPickLine_nil)]
      exact List.map_id st.stmts
    · symm
      rw [List.map_congr_left (fun u _ => applyPickTx_nil)]
      exact List.map_id st.txs
    · simp
  · have := autoMatch_fold_char (autoMatchSnapshot st month) td tv
      (autoMatchLines st month) st 0 (autoMatchLines_ids_nodup st month h)
    simpa using this

/-- Claim C3 (amended): for a store with distinct statement-line ids,
`auto_match` returns the number of unmatched month lines for which a candidate
exists, and an unmatched line of the month ends up matched exactly to the
first transaction — in `list_transactions` order (`tx_date DESC, id DESC`) —
of the call-start snapshot that is unconfirmed, attached to an existing card,
dated *within the same calendar month as the `month` argument* and inside
`[line.date - tol_days, line.date + tol_days]`, with amounts compared by
`np.isclose(tx, line, atol=tol_value)` (which adds numpy's default relative
term `1e-5 * |line.amount|`).  The original claim's criterion — any
unconfirmed transaction in the date window with `|Δamount| ≤ tol_value` —
is refuted by the counterexample: the code also requires the transaction to
lie in `month`, so a previous-month transaction inside the window is never
matched. -/
theorem claim_C3_amended (st : Store) (month : Date) (td : ℕ) (tv : ℚ)
    (hids : (st.stmts.map (·.id)).Nodup) :
    ((autoMatch st month td tv).2
      = (autoMatchLines st month).countP
          (fun s => (autoMatchPick (autoMatchSnapshot st month) td tv s).isSome)) ∧
    ∀ s ∈ st.stmts, inMonthRange month s.trxDate → s.matchedTxId = none →
      ∀ l ∈ (autoMatch st month td tv).1.stmts, l.id = s.id →
        (l.matchedTxId
          = (autoMatchPick (autoMatchSnapshot st month) td tv s).map (·.id)) ∧
        ((l.matchedTxId ≠ none) ↔
          ∃ t ∈ st.txs, st.cards.contains t.cardId = true ∧
            inMonthRange month t.txDate ∧ t.confirmed = false ∧
            txCandidate td tv s t = true) := by
  obtain ⟨hc1, hc2, hc3⟩ := autoMatch_char st month td tv hids
  refine ⟨hc3, ?_⟩
  intro s hsmem hsmonth hsnone l hl hlid
  rw [hc1] at hl
  obtain ⟨l0, hl0, rfl⟩ := List.mem_map.mp hl
  have hid0 : l0.id = s.id := by
    rw [← @applyPickLine_id (autoMatchSnapshot st month) td tv (autoMatchLines st month) l0]
    exact hlid
  have hsl : s ∈ autoMatchLines st month :=
    mem_autoMatchLines.mpr ⟨hsmem, hsmonth, hsnone⟩
  have hl0s : l0 = s :=
    List.inj_on_of_nodup_map hids hl0 hsmem hid0
  subst hl0s
  have hfind := find?_by_id_self (autoMatchLines_ids_nodup st month hids) hsl
  have hval : applyPickLine (autoMatchSnapshot st month) td tv (autoMatchLines st month) l0
      = match autoMatchPick (autoMatchSnapshot st month) td tv l0 with
        | none => l0
        | some t => { l0 with matchedTxId := some t.id, matchedAt := some 0 } := by
    unfold applyPickLine
    rw [hfind]
  cases hpick : autoMatchPick (autoMatchSnapshot st month) td tv l0 with
  | none =>
    rw [hpick] at hval
    dsimp only at hval
    rw [hval]
    refine ⟨by rw [hsnone]; rfl, ?_⟩
    rw [hsnone]
    simp only [ne_eq, not_true_eq_false, false_iff]
    rintro ⟨t, htmem, htc, htm, htcf, htcand⟩
    have : t ∈ autoMatchSnapshot st month :=
      mem_autoMatchSnapshot.mpr ⟨htmem, htc, htm, htcf⟩
    have hnone := List.find?_eq_none.mp hpick t this
    exact hnone htcand
  | some t =>
    rw [hpick] at hval
    dsimp only at hval
    rw [hval]
    refine ⟨rfl, ?_⟩
    simp only [ne_eq, reduceCtorEq, not_false_eq_true, true_iff]
    have htmem := List.mem_of_find?_eq_some hpick
    have htcand := List.find?_some hpick
    obtain ⟨h1, h2, h3, h4⟩ := mem_autoMatchSnapshot.mp htmem
    exact ⟨t, h1, h2, h3, h4, htcand⟩

-- Force-undo characterization ------------------------------------------------

theorem ultimoLoteInfo_total {st : Store} {bid total : ℕ}
    (h : ultimoLoteInfo st = some (bid, total)) :
    total = st.stmts.countP fun x => x.batchId == some bid := by
  unfold ultimoLoteInfo at h
  dsimp only at h
  split at h
  · exact Option.noConfusion h
  · split at h
    · exact Option.noConfusion h
    · simp only [Option.some.injEq, Prod.mk.injEq] at h
      obtain ⟨h1, h2⟩ := h
      subst h1
      exact h2.symm

theorem desfazer_force_char (st : Store) (bid total : ℕ)
    (h : ultimoLoteInfo st = some (bid, total)) :
    (desfazerUltimoLote st true).1.txs
      = st.txs.map (fun t =>
          if ((st.stmts.filter fun l => l.batchId == some bid && l.matchedTxId.isSome).filterMap
              (·.matchedTxId)).contains t.id
          then { t with confirmed := false } else t) ∧
    (desfazerUltimoLote st true).1.stmts
      = (st.stmts.map (fun l => if l.batchId = some bid
          then { l with matchedTxId := none, matchedAt := none } else l)).filter
          (fun l => !(l.batchId == some bid)) ∧
    (desfazerUltimoLote st true).2
      = total - (desfazerUltimoLote st true).1.stmts.countP (fun l => l.batchId == some bid) := by
  unfold desfazerUltimoLote
  rw [h]
  exact ⟨rfl, rfl, rfl⟩

theorem desfazer_none {st : Store} (force : Bool) (h : ultimoLoteInfo st = none) :
    desfazerUltimoLote st force = (st, 0) := by
  unfold desfazerUltimoLote
  rw [h]

/-- Claim C9 (amended): a transaction matched by `auto_match` to a line **of
the most recent batch** is restored to its pre-match `confirmed = 0` by
`undo_last_batch(force=true)` (its pre-match value is 0 because candidates are
unconfirmed); the force undo deletes every line of that batch and returns
their count; and with no batch it returns 0 changing nothing.  The original
claim — *every* transaction affected by the auto-match is restored — fails
when a matched line belongs to an older batch; see the counterexample. -/
theorem claim_C9_amended (st : Store) (month : Date) (td : ℕ) (tv : ℚ)
    (hsid : (st.stmts.map (·.id)).Nodup) (htid : (st.txs.map (·.id)).Nodup) :
    (∀ bid total : ℕ, ultimoLoteInfo (autoMatch st month td tv).1 = some (bid, total) →
      ∀ s ∈ autoMatchLines st month, ∀ tid : ℕ,
        (autoMatchPick (autoMatchSnapshot st month) td tv s).map (·.id) = some tid →
        s.batchId = some bid →
        (∀ t ∈ st.txs, t.id = tid → t.confirmed = false) ∧
        (∀ t ∈ (desfazerUltimoLote (autoMatch st month td tv).1 true).1.txs,
          t.id = tid → t.confirmed = false)) ∧
    (∀ st' : Store, ∀ bid total : ℕ, ultimoLoteInfo st' = some (bid, total) →
      (∀ l ∈ (desfazerUltimoLote st' true).1.stmts, l.batchId ≠ some bid) ∧
      (desfazerUltimoLote st' true).2
        = st'.stmts.countP (fun l => l.batchId == some bid)) ∧
    (∀ st' : Store, ultimoLoteInfo st' = none → desfazerUltimoLote st' true = (st', 0)) := by
  refine ⟨?_, ?_, ?_⟩
  · intro bid total hinfo s hs tid hmap hbatch
    obtain ⟨t0, hpick, hid⟩ := Option.map_eq_some'.mp hmap
    have ht0mem := List.mem_of_find?_eq_some hpick
    obtain ⟨ht0tx, _, _, ht0cf⟩ := mem_autoMatchSnapshot.mp ht0mem
    obtain ⟨hs1, hs2, hs3⟩ := mem_autoMatchLines.mp hs
    constructor
    · intro t htmem htideq
      have ht : t = t0 :=
        List.inj_on_of_nodup_map htid htmem ht0tx (by rw [htideq, ← hid])
      rw [ht]
      exact ht0cf
    · obtain ⟨hc1, hc2, hc3⟩ := autoMatch_char st month td tv hsid
      have hfind := find?_by_id_self (autoMatchLines_ids_nodup st month hsid) hs
      have hl1val : applyPickLine (autoMatchSnapshot st month) td tv (autoMatchLines st month) s
          = { s with matchedTxId := some t0.id, matchedAt := some 0 } := by
        unfold applyPickLine
        rw [hfind]
        dsimp only
        rw [hpick]
      have hl1mem : ({ s with matchedTxId := some t0.id, matchedAt := some 0 } : StmtLine)
          ∈ (autoMatch st month td tv).1.stmts := by
        rw [hc1, ← hl1val]
        exact List.mem_map_of_mem _ hs1
      obtain ⟨hd1, hd2, hd3⟩ := desfazer_force_char (autoMatch st month td tv).1 bid total hinfo
      intro t htmem htideq
      rw [hd1] at htmem
      obtain ⟨t1, ht1, rfl⟩ := List.mem_map.mp htmem
      have htid_mem : tid ∈ ((autoMatch st month td tv).1.stmts.filter
          fun l => l.batchId == some bid && l.matchedTxId.isSome).filterMap (·.matchedTxId) := by
        apply List.mem_filterMap.mpr
        refine ⟨{ s with matchedTxId := some t0.id, matchedAt := some 0 }, ?_, ?_⟩
        · apply List.mem_filter.mpr
          refine ⟨hl1mem, ?_⟩
          show (s.batchId == some bid && (some t0.id).isSome) = true
          rw [hbatch]
          simp
        · show some t0.id = some tid
          rw [hid]
      cases hcont : ((autoMatch st month td tv).1.stmts.filter
          fun l => l.batchId == some bid && l.matchedTxId.isSome).filterMap (·.matchedTxId)
          |>.contains t1.id
      · rw [hcont] at htideq
        have ht1id : t1.id = tid := htideq
        have : (((autoMatch st month td tv).1.stmts.filter
            fun l => l.batchId == some bid && l.matchedTxId.isSome).filterMap
              (·.matchedTxId)).contains t1.id = true := by
          rw [ht1id]
          exact List.elem_iff.mpr htid_mem
        rw [this] at hcont
        exact Bool.noConfusion hcont
      · exact rfl
  · intro st' bid total hinfo
    obtain ⟨hd1, hd2, hd3⟩ := desfazer_force_char st' bid total hinfo
    have hnone : ∀ l ∈ (desfazerUltimoLote st' true).1.stmts, l.batchId ≠ some bid := by
      intro l hl
      rw [hd2] at hl
      have := (List.mem_filter.mp hl).2
      simpa using this
    refine ⟨hnone, ?_⟩
    have hrest : (desfazerUltimoLote st' true).1.stmts.countP
        (fun l => l.batchId == some bid) = 0 := by
      rw [List.countP_eq_zero]
      intro l hl
      simpa using hnone l hl
    rw [hd3, hrest, ultimoLoteInfo_total hinfo]
    omega
  · intro st' h
    exact desfazer_none true h

set_option maxRecDepth 400000 in
/-- Claim C3 (witness): the amended theorem applied to `stDouble` in May
2024 with the default tolerances. -/
theorem claim_C3_witness :
    ((autoMatch stDouble ⟨2024, 5, 1⟩ 2 (1 / 100)).2
      = (autoMatchLines stDouble ⟨2024, 5, 1⟩).countP
          (fun s => (autoMatchPick (autoMatchSnapshot stDouble ⟨2024, 5, 1⟩) 2 (1 / 100) s).isSome)) ∧
    ∀ s ∈ stDouble.stmts, inMonthRange ⟨2024, 5, 1⟩ s.trxDate → s.matchedTxId = none →
      ∀ l ∈ (autoMatch stDouble ⟨2024, 5, 1⟩ 2 (1 / 100)).1.stmts, l.id = s.id →
        (l.matchedTxId
          = (autoMatchPick (autoMatchSnapshot stDouble ⟨2024, 5, 1⟩) 2 (1 / 100) s).map (·.id)) ∧
        ((l.matchedTxId ≠ none) ↔
          ∃ t ∈ stDouble.txs, stDouble.cards.contains t.cardId = true ∧
            inMonthRange ⟨2024, 5, 1⟩ t.txDate ∧ t.confirmed = false ∧
            txCandidate 2 (1 / 100) s t = true) := by
  have h := claim_C3_amended stDouble ⟨2024, 5, 1⟩ 2 (1 / 100) (by decide)
  exact ⟨by with_unfolding_all rfl, h.2⟩

set_option maxRecDepth 400000 in
/-- Claim C9 (witness): the amended theorem applied to `stDouble` in May
2024 with the default tolerances. -/
theorem claim_C9_witness :
    (∀ bid total : ℕ,
      ultimoLoteInfo (autoMatch stDouble ⟨2024, 5, 1⟩ 2 (1 / 100)).1 = some (bid, total) →
      ∀ s ∈ autoMatchLines stDouble ⟨2024, 5, 1⟩, ∀ tid : ℕ,
        (autoMatchPick (autoMatchSnapshot stDouble ⟨2024, 5, 1⟩) 2 (1 / 100) s).map (·.id)
          = some tid →
        s.batchId = some bid →
        (∀ t ∈ stDouble.txs, t.id = tid → t.confirmed = false) ∧
        (∀ t ∈ (desfazerUltimoLote (autoMatch stDouble ⟨2024, 5, 1⟩ 2 (1 / 100)).1 true).1.txs,
          t.id = tid → t.confirmed = false)) ∧
    (∀ st' : Store, ∀ bid total : ℕ, ultimoLoteInfo st' = some (bid, total) →
      (∀ l ∈ (desfazerUltimoLote st' true).1.stmts, l.batchId ≠ some bid) ∧
      (desfazerUltimoLote st' true).2
        = st'.stmts.countP (fun l => l.batchId == some bid)) ∧
    (∀ st' : Store, ultimoLoteInfo st' = none → desfazerUltimoLote st' true = (st', 0)) ∧
    desfazerUltimoLote Store.empty true = (Store.empty, 0) := by
  have h := claim_C9_amended stDouble ⟨2024, 5, 1⟩ 2 (1 / 100) (by decide) (by decide)
  exact ⟨h.1, h.2.1, h.2.2, h.2.2 Store.empty (by with_unfolding_all rfl)⟩

set_option maxRecDepth 100000 in
/-- Claim C3 (counterexample): in `stBoundary` an unconfirmed transaction
dated 2024-04-30 with the line's exact amount lies within ±2 days of the
unmatched line dated 2024-05-01, yet `auto_match` for May 2024 matches
nothing — the claim's "matches iff a tolerance candidate exists" is false as
stated, because the code also restricts candidates to transactions dated in
`month`. -/
theorem claim_C3_counterexample :
    (∃ t ∈ stBoundary.txs, t.confirmed = false ∧
      dateLe (Date.subDays ⟨2024, 5, 1⟩ 2) t.txDate ∧
      dateLe t.txDate (Date.addDays ⟨2024, 5, 1⟩ 2) ∧
      absQ (t.amount - 50) ≤ 1 / 100) ∧
    stBoundary.stmts.map (·.trxDate) = [⟨2024, 5, 1⟩] ∧
    stBoundary.stmts.map (·.amount) = [50] ∧
    stBoundary.stmts.map (·.matchedTxId) = [none] ∧
    (autoMatch stBoundary ⟨2024, 5, 1⟩ 2 (1 / 100)).2 = 0 ∧
    (autoMatch stBoundary ⟨2024, 5, 1⟩ 2 (1 / 100)).1.stmts.map (·.matchedTxId) = [none] :=
  ⟨of_decide_eq_true (by with_unfolding_all rfl), by with_unfolding_all rfl,
   by with_unfolding_all rfl, by with_unfolding_all rfl, by with_unfolding_all rfl,
   by with_unfolding_all rfl⟩

set_option maxRecDepth 100000 in
/-- Claim C9 (counterexample): in `stTwoBatches` the pending transaction is
auto-matched to a line of batch 1, but the most recent batch is batch 2, so
`undo_last_batch(force=true)` leaves the transaction confirmed — its
pre-match `confirmed = 0` is not restored. -/
theorem claim_C9_counterexample :
    stTwoBatches.txs.map (·.confirmed) = [false] ∧
    (autoMatch stTwoBatches ⟨2024, 5, 1⟩ 2 (1 / 100)).1.stmts.map (·.matchedTxId)
      = [some 1, none] ∧
    (desfazerUltimoLote (autoMatch stTwoBatches ⟨2024, 5, 1⟩ 2 (1 / 100)).1 true).1.txs.map
      (·.confirmed) = [true] :=
  ⟨by with_unfolding_all rfl, by with_unfolding_all rfl, by with_unfolding_all rfl⟩

set_option maxRecDepth 100000 in
/-- Claim C1 (code bug): from a reachable store (`add_card` +
`add_tx_parcelado`) satisfying the pairing invariant, the manual "Conciliar"
handler called with a *nonexistent* statement id 99 and the existing pending
transaction id 1 marks transaction 1 confirmed while no statement line exists
at all — the spec's pairing invariant is violated by the code. -/
theorem claim_C1_code_bug :
    pairingInv stLunch ∧
    stLunch.txs.map (·.id) = [1] ∧
    stLunch.stmts = [] ∧
    ¬ pairingInv (conciliar stLunch 99 1) ∧
    (conciliar stLunch 99 1).txs.map (·.confirmed) = [true] ∧
    (conciliar stLunch 99 1).stmts = [] :=
  ⟨of_decide_eq_true (by with_unfolding_all rfl), by with_unfolding_all rfl,
   by with_unfolding_all rfl, of_decide_eq_true (by with_unfolding_all rfl),
   by with_unfolding_all rfl, by with_unfolding_all rfl⟩

set_option maxRecDepth 100000 in
/-- Claim C4 (code bug): `stDouble` has a single pending transaction and two
unmatched lines with the same date and amount; one `auto_match` call reports
2 matches and pairs *both* lines with transaction 1, because the candidate
dataframe is a stale snapshot — the second match picks a transaction that is
already confirmed at that moment, contradicting the claim (and §4.4's state
rule). -/
theorem claim_C4_code_bug :
    stDouble.txs.map (·.id) = [1] ∧
    stDouble.txs.map (·.confirmed) = [false] ∧
    (autoMatch stDouble ⟨2024, 5, 1⟩ 2 (1 / 100)).2 = 2 ∧
    (autoMatch stDouble ⟨2024, 5, 1⟩ 2 (1 / 100)).1.stmts.map (·.matchedTxId)
      = [some 1, some 1] :=
  ⟨by with_unfolding_all rfl, by with_unfolding_all rfl, by with_unfolding_all rfl,
   by with_unfolding_all rfl⟩
